import Mathlib

/-!
TripSplit: balance reconciliation, store, panel and revocation.

A shallow embedding of `script.js`.  Amounts are exact rationals, an object
(`expenses`, the store's `data`) is the list of its entries in enumeration
order, and every routine that touches the page or the cloud returns what it
wrote next to its result.  Builtins whose tables lie outside the script
(`Intl.NumberFormat`, `parseFloat`, `toLowerCase`) are parameters.
-/

namespace TripSplit

/-! ## Data model -/

/-- A member of a group, as stored under `members`. -/
structure Member where
  name : String
  email : String
  uid : String
deriving DecidableEq, Repr

/-- An expense record.  `by_` is the field `by`; `involved` is `none` when the
field is undefined. -/
structure Expense where
  title : String
  amount : ℚ
  by_ : String
  involved : Option (List String)
  timestamp : Int
  date : String
deriving DecidableEq, Repr

/-- The expense mapping `id → Expense`, in `Object.entries` order. -/
abbrev Expenses := List (String × Expense)

/-- The array `Object.values(expenses)`. -/
def values (expenses : Expenses) : List Expense := expenses.map Prod.snd

/-! ## FinanceFormatter -/

/-- The test `exp.involved?.includes(name)`: false when `involved` is undefined. -/
def involvedIncludes (exp : Expense) (name : String) : Bool :=
  match exp.involved with
  | none => false
  | some inv => inv.contains name

/-- The divisor `exp.involved.length`, read only where `involved` is defined. -/
def involvedLength (exp : Expense) : Nat :=
  match exp.involved with
  | none => 0
  | some inv => inv.length

/-- One pass of the `forEach` body of `calcBalance` over expense `exp`. -/
def calcBalanceStep (name : String) (balance : ℚ) (exp : Expense) : ℚ :=
  let balance := if exp.by_ = name then balance + exp.amount else balance
  if involvedIncludes exp name then balance - exp.amount / (involvedLength exp : ℚ)
  else balance

/-- The function `FinanceFormatter.calcBalance(name, expenses)`. -/
def calcBalance (name : String) (expenses : Expenses) : ℚ :=
  (values expenses).foldl (calcBalanceStep name) 0

/-- The loop of `calcBalance` with the divisor of every division it performs
recorded next to the running balance. -/
def calcBalanceTracedStep (name : String) (st : ℚ × List Nat) (exp : Expense) :
    ℚ × List Nat :=
  let balance := if exp.by_ = name then st.1 + exp.amount else st.1
  if involvedIncludes exp name then
    (balance - exp.amount / (involvedLength exp : ℚ), st.2 ++ [involvedLength exp])
  else (balance, st.2)

/-- The function `calcBalance` run with its division trace: the balance returned and the
divisors used, in order. -/
def calcBalanceTraced (name : String) (expenses : Expenses) : ℚ × List Nat :=
  (values expenses).foldl (calcBalanceTracedStep name) (0, [])

/-- The balance as the data model writes it: what `name` paid, minus the
equal shares of the expenses `name` takes part in. -/
def balanceFormula (name : String) (expenses : Expenses) : ℚ :=
  (((values expenses).filter (fun e => decide (e.by_ = name))).map
      (fun e => e.amount)).sum
    - (((values expenses).filter (fun e => involvedIncludes e name)).map
      (fun e => e.amount / (involvedLength e : ℚ))).sum

/-- What one expense adds to the balance of `name`. -/
def contribution (name : String) (exp : Expense) : ℚ :=
  (if exp.by_ = name then exp.amount else 0)
    - (if involvedIncludes exp name then exp.amount / (involvedLength exp : ℚ) else 0)

/-- The scenario expense: Ann pays 300 for Ann and Bob. -/
def annPays : Expenses :=
  [("e1", { title := "Dinner", amount := 300, by_ := "Ann",
            involved := some ["Ann", "Bob"], timestamp := 1, date := "01 Jan" })]

/-- The sum of `calcBalance` over the member list, as `renderRibbonUI` walks it. -/
def totalBalance (members : List Member) (expenses : Expenses) : ℚ :=
  (members.map (fun m => calcBalance m.name expenses)).sum

/-- The payer of `exp` is missing from its `involved` list. -/
def payerExcluded (exp : Expense) : Bool :=
  !(involvedIncludes exp exp.by_)

/-- The sum of `amount` over the expenses whose payer is not in `involved`. -/
def payerExcludedTotal (expenses : Expenses) : ℚ :=
  (((values expenses).filter payerExcluded).map (fun e => e.amount)).sum

/-- The data model of an expense within a group: the payer is a member and
`involved` is a non-empty duplicate-free list of member names. -/
def WellFormedExpense (members : List Member) (exp : Expense) : Prop :=
  exp.by_ ∈ members.map Member.name ∧
    ∃ inv, exp.involved = some inv ∧ inv ≠ [] ∧ inv.Nodup ∧
      ∀ n ∈ inv, n ∈ members.map Member.name

/-- Ann and Bob, the members of the scenarios. -/
def annBob : List Member :=
  [{ name := "Ann", email := "ann@x.io", uid := "u1" },
   { name := "Bob", email := "bob@x.io", uid := "u2" }]

/-- Ann pays 300 for Bob alone: the payer is not a participant. -/
def annPaysForBob : Expenses :=
  [("e1", { title := "Taxi", amount := 300, by_ := "Ann",
            involved := some ["Bob"], timestamp := 1, date := "01 Jan" })]

/-- An expense of 100 with an empty participant list, paid by Ann. -/
def emptySplit : Expense :=
  { title := "Fee", amount := 100, by_ := "Ann", involved := some [],
    timestamp := 2, date := "02 Jan" }

/-- The divisors `calcBalance(name, .)` divides by, one per expense whose
`involved` includes `name`. -/
def divisors (name : String) (es : List Expense) : List Nat :=
  (es.filter (fun e => involvedIncludes e name)).map involvedLength

/-- An expense whose `involved` field is undefined, paid by Bob. -/
def undefinedSplit : Expense :=
  { title := "Tip", amount := 40, by_ := "Bob", involved := none,
    timestamp := 3, date := "03 Jan" }

/-- Two expenses in one order. -/
def ledgerAB : Expenses :=
  [("a", { title := "Dinner", amount := 300, by_ := "Ann",
           involved := some ["Ann", "Bob"], timestamp := 1, date := "01 Jan" }),
   ("b", { title := "Taxi", amount := 90, by_ := "Bob",
           involved := some ["Ann", "Bob"], timestamp := 2, date := "02 Jan" })]

/-- The same two expenses in the other order. -/
def ledgerBA : Expenses :=
  [("b", { title := "Taxi", amount := 90, by_ := "Bob",
           involved := some ["Ann", "Bob"], timestamp := 2, date := "02 Jan" }),
   ("a", { title := "Dinner", amount := 300, by_ := "Ann",
           involved := some ["Ann", "Bob"], timestamp := 1, date := "01 Jan" })]

/-! ## TripState -/

/-- The signed-in user handed over by the auth provider. -/
structure User where
  displayName : Option String
  email : String
  uid : String
  photoURL : Option String
deriving DecidableEq, Repr

/-- The values the fields of the store's `data` take. -/
inductive Val where
  | null
  | bool (b : Bool)
  | str (s : String)
  | members (ms : List Member)
  | expenses (es : Expenses)
  | user (u : User)
  | handle (n : Nat)
deriving DecidableEq, Repr

/-- A plain object: its own entries, in enumeration order. -/
abbrev Obj := List (String × Val)

/-- The keys of an object, `Object.keys(o)`. -/
def keys (o : Obj) : List String := o.map Prod.fst

/-- Property read `o[k]`; `none` is `undefined`. -/
def getProp : Obj → String → Option Val
  | [], _ => none
  | (k', v) :: rest, k => if k' = k then some v else getProp rest k

/-- Property write `o[k] = v`: an existing key keeps its place, a new key is
appended. -/
def setProp : Obj → String → Val → Obj
  | [], k, v => [(k, v)]
  | (k', v') :: rest, k, v =>
    if k' = k then (k, v) :: rest else (k', v') :: setProp rest k v

/-- Copies the entries of `src` onto `target` in order, as a spread element
does. -/
def assign (target src : Obj) : Obj :=
  src.foldl (fun acc kv => setProp acc kv.1 kv.2) target

/-- The object literal `{ ...data, ...update }`. -/
def spread (data update : Obj) : Obj :=
  assign (assign [] data) update

/-- A subscriber callback: it receives the state object and acts on the world
`W` outside the store; it either returns (`ok`) or throws (`error`), in both
cases with the world it leaves behind.  A callback that calls back into the
store is outside this model. -/
abbrev Callback (W : Type) := Obj → W → Except W W

/-- The store: `data` and the subscriber callbacks. -/
structure TripState (W : Type) where
  data : Obj
  subscribers : List (Callback W)

/-- The state `new TripState()` starts from. -/
def TripState.initial (W : Type) : TripState W :=
  { data := [("currentGroupId", Val.null), ("groupMembers", Val.members []),
             ("expenses", Val.expenses []), ("activeView", Val.str "dashboard"),
             ("currentUser", Val.null), ("isPanelOpen", Val.bool false),
             ("analyticsChart", Val.null), ("insightsTimer", Val.null)],
    subscribers := [] }

/-- The loop `subscribers.forEach(fn => fn(data))`: the callbacks run in array
order, and a callback that throws ends the loop, the exception leaving
`forEach` before the later callbacks are reached. -/
def forEachCallback {W : Type} (data : Obj) : List (Callback W) → W → Except W W
  | [], w => Except.ok w
  | fn :: rest, w =>
    match fn data w with
    | Except.ok w1 => forEachCallback data rest w1
    | Except.error w1 => Except.error w1

/-- Method `emit()`: calls every subscriber, in array order, with `this.data`. -/
def TripState.emit {W : Type} (s : TripState W) (w : W) : Except W W :=
  forEachCallback s.data s.subscribers w

/-- Method `update(update)`: replaces `data` by the spread of the old data and the
fragment, then emits; an exception of a callback leaves `update` with `data`
already replaced.  The console line is not modelled. -/
def TripState.update {W : Type} (s : TripState W) (update : Obj) (w : W) :
    TripState W × Except W W :=
  let s' : TripState W := { s with data := spread s.data update }
  (s', s'.emit w)

/-- Method `subscribe(fn)`: pushes `fn` onto the subscriber array. -/
def TripState.subscribe {W : Type} (s : TripState W) (fn : Callback W) (w : W) :
    TripState W × W :=
  ({ s with subscribers := s.subscribers ++ [fn] }, w)

/-- A run of `subscribe` calls, one per callback, in order. -/
def subscribeAll {W : Type} (s : TripState W) (fns : List (Callback W)) (w : W) :
    TripState W × W :=
  fns.foldl (fun acc fn => acc.1.subscribe fn acc.2) (s, w)

/-- The world a callback leaves, whether it returned or threw. -/
def worldOf {W : Type} : Except W W → W
  | Except.ok w => w
  | Except.error w => w

/-- A callback that appends its tag and the state it was handed to a log. -/
def recorder (tag : Nat) : Callback (List (Nat × Obj)) :=
  fun d log => Except.ok (log ++ [(tag, d)])

/-- A callback that throws at once. -/
def thrower : Callback (List (Nat × Obj)) :=
  fun _ log => Except.error log

/-- A store holding one expense `a`. -/
def storeWithA : TripState Unit :=
  { data := [("currentGroupId", Val.str "g1"),
             ("expenses", Val.expenses [("a", emptySplit)])],
    subscribers := [] }

/-- An update fragment that carries a new expense mapping holding only `b`. -/
def fragmentB : Obj := [("expenses", Val.expenses [("b", undefinedSplit)])]

/-! ## AppRenderer -/

/-- A page element, as far as the script writes to it. -/
structure Node where
  innerText : String
  classList : List String
deriving DecidableEq, Repr

/-- The call `classList.remove(...tokens)`. -/
def classListRemove (classList tokens : List String) : List String :=
  classList.filter (fun c => !tokens.contains c)

/-- The call `classList.add(token)`: a token already present is not repeated. -/
def classListAdd (classList : List String) (token : String) : List String :=
  if classList.contains token then classList else classList ++ [token]

/-- The expression `s.split(' ')[0]`: the characters before the first space. -/
def firstToken (s : String) : String :=
  String.mk (s.data.takeWhile (fun c => c != ' '))

/-- The expression `currentUser?.displayName?.split(' ')[0] || "User"`. -/
def userShort (currentUser : Option User) : String :=
  match currentUser with
  | none => "User"
  | some u =>
    match u.displayName with
    | none => "User"
    | some dn => if firstToken dn = "" then "User" else firstToken dn

/-- The three elements `reconcileFinancials` writes. -/
structure FinancialNodes where
  totalVal : Node
  userVal : Node
  balVal : Node
deriving DecidableEq, Repr

/-- The three balance classes, in the order of the `remove` call. -/
def balanceClasses : List String :=
  ["text-emerald-500", "text-rose-500", "text-indigo-600"]

/-- The class chosen by `netBalance > 0 ? ... : netBalance < 0 ? ... : ...`. -/
def balanceClass (netBalance : ℚ) : String :=
  if netBalance > 0 then "text-emerald-500"
  else if netBalance < 0 then "text-rose-500"
  else "text-indigo-600"

/-- The method `AppRenderer.reconcileFinancials()`, on the two fields it destructures
from the store and the three elements it writes.  `toCurrency` is the
`Intl.NumberFormat` formatter of `FinanceFormatter.toCurrency`. -/
def reconcileFinancials (toCurrency : ℚ → String) (expenses : Expenses)
    (currentUser : Option User) (nodes : FinancialNodes) : FinancialNodes :=
  let expList := values expenses
  let total := expList.foldl (fun a c => a + c.amount) 0
  let short := userShort currentUser
  let myContribution :=
    (expList.filter (fun e => decide (e.by_ = short))).foldl (fun a c => a + c.amount) 0
  let netBalance := calcBalance short expenses
  { totalVal := { nodes.totalVal with innerText := toCurrency total },
    userVal := { nodes.userVal with innerText := toCurrency myContribution },
    balVal :=
      { innerText := toCurrency netBalance,
        classList :=
          classListAdd (classListRemove nodes.balVal.classList balanceClasses)
            (balanceClass netBalance) } }

/-- The comparator of `renderFeedUI`, `(a, b) => b[1].timestamp - a[1].timestamp`. -/
def feedCompare (a b : String × Expense) : Int :=
  b.2.timestamp - a.2.timestamp

/-- Puts `a`, which stood before every element of the list, in front of the
first element it does not have to follow (`cmp a b ≤ 0`). -/
def sortInsert {α : Type} (cmp : α → α → Int) (a : α) : List α → List α
  | [] => [a]
  | b :: rest => if cmp a b ≤ 0 then a :: b :: rest else b :: sortInsert cmp a rest

/-- The builtin `Array.prototype.sort(cmp)`: the stable sort ECMAScript prescribes, written
as an insertion sort; a negative `cmp a b` puts `a` first, a positive one `b`,
and elements that compare 0 keep their order. -/
def arraySort {α : Type} (cmp : α → α → Int) : List α → List α
  | [] => []
  | a :: rest => sortInsert cmp a (arraySort cmp rest)

/-- What `renderFeedUI` leaves in the feed: the placeholder, or one card per
item. -/
inductive FeedView where
  | placeholder
  | cards (items : List (String × Expense))
deriving DecidableEq, Repr

/-- The method `AppRenderer.renderFeedUI()` on the `expenses` field of the store. -/
def renderFeedUI (expenses : Expenses) : FeedView :=
  let items := arraySort feedCompare expenses
  if items.length = 0 then FeedView.placeholder else FeedView.cards items

/-- The entries whose cards are in the feed, in feed order. -/
def FeedView.rendered : FeedView → List (String × Expense)
  | FeedView.placeholder => []
  | FeedView.cards items => items

/-! ## RevocationService -/

/-- The constant `TRIP_PRO_CONFIG.ADMIN_PRIVILEGE`. -/
def TRIP_PRO_CONFIG.ADMIN_PRIVILEGE : String := "akhilgoel985@gmail.com"

/-- Lower-casing of the ASCII letters: `A`..`Z` go to `a`..`z`, every other
character is kept. -/
def asciiLowerCase (s : String) : String :=
  String.mk (s.data.map Char.toLower)

/-- The builtin `String.prototype.toLowerCase`.  Its Unicode case tables are
not part of the script, so the function is a parameter of which only the
behaviour on ASCII strings is fixed. -/
structure LowerCase where
  toLowerCase : String → String
  ascii : ∀ s : String, (∀ c ∈ s.data, c.toNat < 128) → toLowerCase s = asciiLowerCase s

/-- A lower-casing that folds the ASCII letters only. -/
def asciiOnly : LowerCase :=
  { toLowerCase := asciiLowerCase, ascii := fun _ _ => rfl }

/-- Lower-casing of one character over ASCII and the Latin-1 letters
(`U+00C0`..`U+00DE` without the multiplication sign). -/
def latinLowerChar (c : Char) : Char :=
  if 0xC0 ≤ c.toNat ∧ c.toNat ≤ 0xDE ∧ c.toNat ≠ 0xD7 then Char.ofNat (c.toNat + 32)
  else c.toLower

/-- A lower-casing that also folds the Latin-1 letters, as the builtin does. -/
def latinLower : LowerCase :=
  { toLowerCase := fun s => String.mk (s.data.map latinLowerChar),
    ascii := fun s h => by
      show String.mk (s.data.map latinLowerChar) = String.mk (s.data.map Char.toLower)
      congr 1
      apply List.map_congr_left
      intro c hc
      have := h c hc
      unfold latinLowerChar
      rw [if_neg (by omega)] }

/-- A call of `UIFeedback.toast(msg, type)`. -/
structure Toast where
  msg : String
  type : String
deriving DecidableEq, Repr

/-- What a revocation can read and write: the session's group id and member
list, the `members` node stored in the cloud under each group path, the
notices issued and the confirmation dialogs shown. -/
structure World where
  currentGroupId : Option String
  groupMembers : List Member
  cloudMembers : List (String × List Member)
  toasts : List Toast
  confirms : List String
deriving DecidableEq, Repr

/-- The template literal for the group path; a null id prints as `null`. -/
def groupPath (currentGroupId : Option String) : String :=
  "groups/" ++ (match currentGroupId with
    | none => "null"
    | some id => id)

/-- The cloud write `ref(path).update` of a `members` field: replaces the
member list stored under `path`. -/
def writeMembers : List (String × List Member) → String → List Member →
    List (String × List Member)
  | [], path, ms => [(path, ms)]
  | (p, old) :: rest, path, ms =>
    if p = path then (path, ms) :: rest else (p, old) :: writeMembers rest path ms

/-- The method `RevocationService.execute(email)`.  `L` is the lower-casing
builtin, `confirmAnswer` what the `confirm` dialog returns if it is shown,
`writeOk` whether the cloud write resolves. -/
def RevocationService.execute (L : LowerCase) (email : String)
    (confirmAnswer writeOk : Bool) (w : World) : World :=
  if L.toLowerCase email = TRIP_PRO_CONFIG.ADMIN_PRIVILEGE then
    { w with
      toasts := w.toasts ++ [⟨"Root Admin protection is active üõ°Ô∏è", "warning"⟩] }
  else
    let w1 : World :=
      { w with confirms := w.confirms ++ ["Initialize cloud revocation for " ++ email ++ "?"] }
    if !confirmAnswer then w1
    else
      let currentList := w1.groupMembers
      let filtered :=
        currentList.filter (fun m => L.toLowerCase m.email != L.toLowerCase email)
      if writeOk then
        { w1 with
          cloudMembers := writeMembers w1.cloudMembers (groupPath w1.currentGroupId) filtered,
          toasts := w1.toasts ++ [⟨"Access rights terminated üö´", "success"⟩] }
      else
        { w1 with toasts := w1.toasts ++ [⟨"API Authorization Denied ‚ùå", "error"⟩] }

/-- A session on group `g1` with Ann and Bob, mirrored in the cloud. -/
def sampleWorld : World :=
  { currentGroupId := some "g1", groupMembers := annBob,
    cloudMembers := [("groups/g1", annBob)], toasts := [], confirms := [] }

/-- The member list stored in the cloud under `path`, if any. -/
def readMembers : List (String × List Member) → String → Option (List Member)
  | [], _ => none
  | (p, ms) :: rest, path => if p = path then some ms else readMembers rest path

/-- The list `execute(email)` hands to the cloud write: the members whose
lower-cased email differs from the lower-cased `email`. -/
def revocationFilter (L : LowerCase) (members : List Member) (email : String) :
    List Member :=
  members.filter (fun m => L.toLowerCase m.email != L.toLowerCase email)

/-- A session on group `g1` with Ann and Böb, mirrored in the cloud. -/
def umlautWorld : World :=
  { currentGroupId := some "g1",
    groupMembers :=
      [{ name := "Ann", email := "ann@x.io", uid := "u1" },
       { name := "Böb", email := "böb@x.io", uid := "u3" }],
    cloudMembers :=
      [("groups/g1",
        [{ name := "Ann", email := "ann@x.io", uid := "u1" },
         { name := "Böb", email := "böb@x.io", uid := "u3" }])],
    toasts := [], confirms := [] }

/-- What `hardReset` can read and write: the session's group id, the
`expenses` node stored in the cloud under each path, the `remove()` calls
made, the prompts shown, the notices issued and the views navigated to. -/
structure LedgerWorld where
  currentGroupId : Option String
  cloudExpenses : List (String × Expenses)
  removeCalls : List String
  prompts : List String
  toasts : List Toast
  navigations : List String
deriving DecidableEq, Repr

/-- The text of the `prompt` dialog of `hardReset`. -/
def purgePrompt : String := "This wipes ALL cloud transactions. Type 'PURGE' to proceed."

/-- Truthiness of `currentGroupId`: set and not the empty string. -/
def groupIdSet (currentGroupId : Option String) : Bool :=
  match currentGroupId with
  | none => false
  | some id => id != ""

/-- The cloud call `ref(path).remove()`: drops what is stored under `path`. -/
def removeNode (cloud : List (String × Expenses)) (path : String) :
    List (String × Expenses) :=
  cloud.filter (fun entry => entry.1 != path)

/-- The expense collection stored under `path`, if any. -/
def readExpenses : List (String × Expenses) → String → Option Expenses
  | [], _ => none
  | (p, es) :: rest, path => if p = path then some es else readExpenses rest path

/-- The method `RevocationService.hardReset()`.  `challenge` is what `prompt`
returns if it is shown (`none` for a cancelled prompt), `removeOk` whether the
cloud removal resolves. -/
def RevocationService.hardReset (challenge : Option String) (removeOk : Bool)
    (w : LedgerWorld) : LedgerWorld :=
  if !groupIdSet w.currentGroupId then w
  else
    let w1 : LedgerWorld :=
      { w with prompts := w.prompts ++ [purgePrompt] }
    if challenge ≠ some "PURGE" then
      { w1 with toasts := w1.toasts ++ [⟨"Security Overridden: Reset Aborted", "info"⟩] }
    else
      let path := groupPath w1.currentGroupId ++ "/expenses"
      let w2 : LedgerWorld := { w1 with removeCalls := w1.removeCalls ++ [path] }
      if removeOk then
        { w2 with
          cloudExpenses := removeNode w2.cloudExpenses path,
          toasts := w2.toasts ++ [⟨"Cloud Ledger Purged üßπ", "success"⟩],
          navigations := w2.navigations ++ ["dashboard"] }
      else
        { w2 with toasts := w2.toasts ++ [⟨"Critical System Error ‚ùå", "error"⟩] }

/-- A session on group `g1` whose ledger holds Ann's dinner. -/
def sampleLedger : LedgerWorld :=
  { currentGroupId := some "g1", cloudExpenses := [("groups/g1/expenses", annPays)],
    removeCalls := [], prompts := [], toasts := [], navigations := [] }

/-! ## Participant chips and TransactionPanel -/

/-- A page element that carries a `data-name`: its class list, `dataset.name`,
text and the three inline styles `toggleChip` sets. -/
structure Chip where
  classList : List String
  name : String
  innerText : String
  background : String
  color : String
  boxShadow : String
deriving DecidableEq, Repr

/-- The `className` given to a participant chip by `renderRibbonUI`. -/
def chipClassName : List String :=
  ["px-6", "py-3", "bg-indigo-600", "text-white", "rounded-[1.2rem]", "text-[12px]",
   "font-bold", "cursor-pointer", "transition-all", "chip-active", "shadow-lg"]

/-- A balance card of the ribbon: the member name, the balance and whether it
is shown in emerald (`balance >= 0`) rather than rose. -/
structure RibbonCard where
  name : String
  balance : ℚ
  emerald : Bool
deriving DecidableEq, Repr

/-- What `renderRibbonUI` leaves on the page: the ribbon cards and the chips
of the participant grid. -/
structure RibbonView where
  cards : List RibbonCard
  chips : List Chip
deriving DecidableEq, Repr

/-- The method `AppRenderer.renderRibbonUI()`: one card and, when the
participant grid exists, one chip per member, in member order. -/
def renderRibbonUI (groupMembers : List Member) (expenses : Expenses)
    (gridPresent : Bool) : RibbonView :=
  { cards := groupMembers.map (fun m =>
      { name := m.name, balance := calcBalance m.name expenses,
        emerald := decide (calcBalance m.name expenses ≥ 0) }),
    chips :=
      if gridPresent then
        groupMembers.map (fun m =>
          { classList := chipClassName, name := m.name, innerText := m.name,
            background := "", color := "", boxShadow := "" })
      else [] }

/-- The call `classList.toggle(token)`: the new class list and whether the
token is now present. -/
def classListToggle (classList : List String) (token : String) : List String × Bool :=
  if classList.contains token then (classList.filter (fun c => c != token), false)
  else (classList ++ [token], true)

/-- The method `AppRenderer.toggleChip(el)`. -/
def toggleChip (el : Chip) : Chip :=
  let toggled := classListToggle el.classList "chip-active"
  let active := toggled.2
  { el with
    classList := toggled.1,
    background := if active then "#6366f1" else "#f1f5f9",
    color := if active then "white" else "#94a3b8",
    boxShadow := if active then "0 10px 15px -3px rgba(99, 102, 241, 0.3)" else "none" }

/-- A click on the chip at position `i` of the grid, which runs its `onclick`. -/
def clickChip : Nat → List Chip → List Chip
  | _, [] => []
  | 0, c :: rest => toggleChip c :: rest
  | i + 1, c :: rest => c :: clickChip i rest

/-- The grid after a run of clicks, given by the positions clicked. -/
def clickChips (clicks : List Nat) (chips : List Chip) : List Chip :=
  clicks.foldl (fun acc i => clickChip i acc) chips

/-- A chip counts as selected when it carries `chip-active`, the class it is
created with and `toggleChip` flips. -/
def chipSelected (c : Chip) : Bool := c.classList.contains "chip-active"

/-- White space as `String.prototype.trim` strips it. -/
def isTrimSpace (c : Char) : Bool :=
  let n := c.toNat
  n = 0x09 || n = 0x0A || n = 0x0B || n = 0x0C || n = 0x0D || n = 0x20 || n = 0xA0
    || n = 0x1680 || (0x2000 ≤ n && n ≤ 0x200A) || n = 0x2028 || n = 0x2029
    || n = 0x202F || n = 0x205F || n = 0x3000 || n = 0xFEFF

/-- The call `s.trim()`. -/
def trim (s : String) : String :=
  String.mk (((s.data.dropWhile isTrimSpace).reverse.dropWhile isTrimSpace).reverse)

/-- Timers the panel schedules with `setTimeout`. -/
inductive Deferred where
  | slidePanelIn
  | hideOverlay
deriving DecidableEq, Repr

/-- The floating panel as `toggle` writes it: the class lists of the panel and
of the overlay, `body.style.overflow` and the timers scheduled. -/
structure PanelState where
  floatingPanel : List String
  panelOverlay : List String
  bodyOverflow : String
  scheduled : List Deferred
deriving DecidableEq, Repr

/-- The call `classList.add(...tokens)`. -/
def classListAddAll (classList tokens : List String) : List String :=
  tokens.foldl classListAdd classList

/-- The method `TransactionPanel.toggle(show)`, up to the timers it schedules. -/
def TransactionPanel.toggle (show_ : Bool) (p : PanelState) : PanelState :=
  if show_ then
    { p with
      panelOverlay := classListRemove p.panelOverlay ["hidden"],
      scheduled := p.scheduled ++ [Deferred.slidePanelIn],
      bodyOverflow := "hidden" }
  else
    { p with
      floatingPanel :=
        classListAddAll (classListRemove p.floatingPanel ["translate-y-0", "opacity-100"])
          ["translate-y-full", "opacity-0", "pointer-events-none"],
      scheduled := p.scheduled ++ [Deferred.hideOverlay],
      bodyOverflow := "auto" }

/-- The expense record `publish` pushes; the timestamp is the server's
placeholder and is filled in by the cloud. -/
structure Payload where
  title : String
  amount : ℚ
  involved : List String
  by_ : String
  date : String
deriving DecidableEq, Repr

/-- What `publish` can read and write: the two form fields, the elements of
the document that carry a `data-name` (in document order), the panel, the
records pushed to the cloud (with their path) and the notices issued. -/
structure TxWorld where
  titleValue : String
  amountValue : String
  elements : List Chip
  panel : PanelState
  pushes : List (String × Payload)
  toasts : List Toast
deriving DecidableEq, Repr

/-- The names `publish` collects: `dataset.name` of the elements matched by
`querySelectorAll('.active-chip')`. -/
def activeChipNames (elements : List Chip) : List String :=
  (elements.filter (fun c => c.classList.contains "active-chip")).map (fun c => c.name)

/-- The notice `publish` issues when validation fails. -/
def missingMetaData : Toast := ⟨"Missing Enterprise Meta-Data üìù", "warning"⟩

/-- The method `TransactionPanel.publish()`.  `parseFloat` is the builtin
(`none` for `NaN`), `today` the formatted date, `pushOk` whether the cloud push
resolves; the two loader calls have empty bodies and are left out. -/
def TransactionPanel.publish (parseFloat : String → Option ℚ) (today : String)
    (currentUser : Option User) (currentGroupId : Option String) (pushOk : Bool)
    (w : TxWorld) : TxWorld :=
  let title := trim w.titleValue
  let amount := parseFloat w.amountValue
  let involved := activeChipNames w.elements
  match amount with
  | none => { w with toasts := w.toasts ++ [missingMetaData] }
  | some a =>
    if title = "" ∨ involved.length = 0 then
      { w with toasts := w.toasts ++ [missingMetaData] }
    else
      match currentUser.bind (fun u => u.displayName) with
      | none => { w with toasts := w.toasts ++ [⟨"Publication Error ‚ùå", "error"⟩] }
      | some displayName =>
        let payload : Payload :=
          { title := title, amount := a, involved := involved,
            by_ := firstToken displayName, date := today }
        if pushOk then
          { w with
            pushes := w.pushes ++ [(groupPath currentGroupId ++ "/expenses", payload)],
            toasts := w.toasts ++ [⟨"Cloud ledger updated ‚òÅÔ∏è", "success"⟩],
            titleValue := "",
            amountValue := "",
            panel := TransactionPanel.toggle false w.panel }
        else
          { w with toasts := w.toasts ++ [⟨"Publication Error ‚ùå", "error"⟩] }

/-- A parser for witnesses: reads a run of decimal digits, `NaN` otherwise. -/
def parseDigits (s : String) : Option ℚ :=
  if s.data ≠ [] ∧ s.data.all Char.isDigit then
    some ((s.data.foldl (fun acc c => 10 * acc + (c.toNat - 48)) 0 : Nat) : ℚ)
  else none

/-- An open panel. -/
def openPanel : PanelState :=
  { floatingPanel := ["translate-y-0", "opacity-100"], panelOverlay := [],
    bodyOverflow := "hidden", scheduled := [] }

/-- The page after `renderRibbonUI` for Ann and Bob with the form filled in:
both chips are selected. -/
def filledForm : TxWorld :=
  { titleValue := "Dinner", amountValue := "300",
    elements := (renderRibbonUI annBob [] true).chips,
    panel := openPanel, pushes := [], toasts := [] }

/-- Ann, signed in. -/
def annUser : User :=
  { displayName := some "Ann Smith", email := "ann@x.io", uid := "u1", photoURL := none }

/-- Another Ann, with another email and uid. -/
def annOther : User :=
  { displayName := some "Ann Jones", email := "ann.jones@x.io", uid := "u9",
    photoURL := none }

/-! ## Insight timer -/

/-- The timer side of the session: the handle recorded in
`GlobalStore.data.insightsTimer`, the interval timers started and not yet
cancelled, and the last handle the browser issued (handles are positive and
never reused). -/
structure TimerState where
  insightsTimer : Option Nat
  activeIntervals : List Nat
  lastHandle : Nat
deriving DecidableEq, Repr

/-- The call `setInterval(...)`: starts a timer and returns its fresh handle. -/
def setInterval (s : TimerState) : Nat × TimerState :=
  (s.lastHandle + 1,
    { s with
      activeIntervals := s.activeIntervals ++ [s.lastHandle + 1],
      lastHandle := s.lastHandle + 1 })

/-- The call `clearInterval(id)`. -/
def clearInterval (id : Nat) (s : TimerState) : TimerState :=
  { s with activeIntervals := s.activeIntervals.filter (fun t => t != id) }

/-- The method `UIFeedback.runAIAnalysis()`; `bannerPresent` says whether the
element `ai-status-text` exists. -/
def UIFeedback.runAIAnalysis (bannerPresent : Bool) (s : TimerState) : TimerState :=
  if !bannerPresent then s
  else
    let s1 :=
      match s.insightsTimer with
      | none => s
      | some t => if t != 0 then clearInterval t s else s
    let started := setInterval s1
    { started.2 with insightsTimer := some started.1 }

/-- The method `AppRenderer.refresh()` on the timer side: the render routines
start and cancel no interval timer and leave `insightsTimer` alone; when one
of them throws (`rendersOk` false) `runAIAnalysis` is not reached. -/
def AppRenderer.refresh (rendersOk bannerPresent : Bool) (s : TimerState) : TimerState :=
  if rendersOk then UIFeedback.runAIAnalysis bannerPresent s else s

/-- A call of one of the two routines. -/
inductive Call where
  | refresh (rendersOk bannerPresent : Bool)
  | runAIAnalysis (bannerPresent : Bool)
deriving DecidableEq, Repr

/-- The effect of one call. -/
def step (s : TimerState) : Call → TimerState
  | Call.refresh rendersOk bannerPresent => AppRenderer.refresh rendersOk bannerPresent s
  | Call.runAIAnalysis bannerPresent => UIFeedback.runAIAnalysis bannerPresent s

/-- The timer state of a fresh session. -/
def TimerState.initial : TimerState :=
  { insightsTimer := none, activeIntervals := [], lastHandle := 0 }

/-- The state reached from a fresh session by a sequence of calls. -/
def runCalls (calls : List Call) : TimerState :=
  calls.foldl step TimerState.initial

/-- The recorded timer, when there is one, is the only active one. -/
def TimerInv (s : TimerState) : Prop :=
  (s.insightsTimer = none ∧ s.activeIntervals = [])
    ∨ ∃ t, 0 < t ∧ t ≤ s.lastHandle ∧ s.insightsTimer = some t ∧ s.activeIntervals = [t]

/-! ## WorkspaceController -/

/-- The value of a group snapshot, as far as `join` reads it. -/
structure GroupData where
  name : String
  members : Option (List Member)
deriving DecidableEq, Repr

/-- What `join` does: the member list of a cloud update that went through, the
notices issued, whether the modal was closed and the circle entered. -/
structure JoinResult where
  written : Option (List Member)
  toasts : List Toast
  modalClosed : Bool
  entered : Option (String × String)
deriving DecidableEq, Repr

/-- The method `WorkspaceController.join()`.  `L` is the lower-casing builtin,
`idValue` the value of the id field (`none` when the field is missing),
`snapshot` what the read returns (`none` when it rejects, `some none` when the
group does not exist), `writeOk` whether the cloud update resolves. -/
def WorkspaceController.join (L : LowerCase) (idValue : Option String)
    (snapshot : Option (Option GroupData)) (currentUser : Option User) (writeOk : Bool) :
    JoinResult :=
  let failed : JoinResult :=
    { written := none, toasts := [⟨"Network Rejection ‚ùå", "error"⟩], modalClosed := false, entered := none }
  match idValue.map trim with
  | none => { written := none, toasts := [], modalClosed := false, entered := none }
  | some id =>
    if id = "" then { written := none, toasts := [], modalClosed := false, entered := none }
    else
      match snapshot with
      | none => failed
      | some none =>
        { written := none, toasts := [⟨"Cloud ID Not Found ‚ùå", "error"⟩], modalClosed := false,
          entered := none }
      | some (some data) =>
        match currentUser with
        | none => failed
        | some user =>
          let members := data.members.getD []
          if !members.any (fun m => m.email == L.toLowerCase user.email) then
            match user.displayName with
            | none => failed
            | some displayName =>
              let pushed := members ++
                [{ name := firstToken displayName, email := L.toLowerCase user.email,
                   uid := user.uid }]
              if writeOk then
                { written := some pushed, toasts := [⟨"Handshake Successful ‚úàÔ∏è", "success"⟩],
                  modalClosed := true, entered := some (id, data.name) }
              else failed
          else
            { written := none, toasts := [⟨"Handshake Successful ‚úàÔ∏è", "success"⟩],
              modalClosed := true, entered := some (id, data.name) }

/-- The member list of the group once `join` is done: the list written, or
the stored one when nothing was written. -/
def membersAfterJoin (data : GroupData) (r : JoinResult) : List Member :=
  r.written.getD (data.members.getD [])

/-- The group of Ann and Bob. -/
def annBobGroup : GroupData := { name := "Trip", members := some annBob }

/-! ## Theorems -/

theorem calcBalanceStep_eq (name : String) (b : ℚ) (e : Expense) :
    calcBalanceStep name b e = b + contribution name e := by
  unfold calcBalanceStep contribution
  by_cases h1 : e.by_ = name <;> by_cases h2 : involvedIncludes e name = true <;>
    simp [h1, h2] <;> ring

theorem foldl_calcBalanceStep (name : String) (es : List Expense) (b : ℚ) :
    es.foldl (calcBalanceStep name) b = b + (es.map (contribution name)).sum := by
  induction es generalizing b with
  | nil => simp
  | cons e es ih =>
    simp only [List.foldl_cons, List.map_cons, List.sum_cons, ih, calcBalanceStep_eq]
    ring

theorem calcBalance_eq_sum (name : String) (expenses : Expenses) :
    calcBalance name expenses = ((values expenses).map (contribution name)).sum := by
  simp [calcBalance, foldl_calcBalanceStep]

theorem sum_contribution_eq_formula (name : String) (es : List Expense) :
    (es.map (contribution name)).sum
      = ((es.filter (fun e => decide (e.by_ = name))).map (fun e => e.amount)).sum
        - ((es.filter (fun e => involvedIncludes e name)).map
            (fun e => e.amount / (involvedLength e : ℚ))).sum := by
  induction es with
  | nil => simp
  | cons e es ih =>
    simp only [List.map_cons, List.sum_cons, ih, List.filter_cons, contribution]
    by_cases h1 : e.by_ = name <;> by_cases h2 : involvedIncludes e name = true <;>
      simp [h1, h2] <;> ring

/-- C1: `calcBalance(name, expenses)` is the sum of `amount` over the expenses
paid by `name` minus the sum of `amount / |involved|` over the expenses whose
`involved` contains `name`; for Ann paying 300 for Ann and Bob it gives 150 for
Ann and -150 for Bob. -/
theorem calcBalance_eq_balanceFormula :
    (∀ (name : String) (expenses : Expenses),
        calcBalance name expenses = balanceFormula name expenses)
      ∧ calcBalance "Ann" annPays = 150 ∧ calcBalance "Bob" annPays = -150 := by
  refine ⟨fun name expenses => ?_, ?_, ?_⟩
  · rw [calcBalance_eq_sum, sum_contribution_eq_formula]; rfl
  · simp [calcBalance, values, annPays, calcBalanceStep, involvedIncludes, involvedLength]
    norm_num
  · simp [calcBalance, values, annPays, calcBalanceStep, involvedIncludes, involvedLength]
    norm_num

theorem sum_payer_indicator (a : ℚ) (payer : String) (ns : List String) (hns : ns.Nodup) :
    (ns.map (fun n => if payer = n then a else 0)).sum = if payer ∈ ns then a else 0 := by
  induction ns with
  | nil => simp
  | cons n ns ih =>
    have hn : n ∉ ns := (List.nodup_cons.1 hns).1
    rw [List.map_cons, List.sum_cons, ih (List.nodup_cons.1 hns).2]
    by_cases h1 : payer = n
    · subst h1; simp [hn]
    · have h2 : ¬ n = payer := fun h => h1 h.symm
      simp [h1, List.mem_cons]

theorem sum_share_indicator (c : ℚ) (inv ns : List String) :
    (ns.map (fun n => if inv.contains n = true then c else 0)).sum
      = ((ns.filter (fun n => inv.contains n)).length : ℚ) * c := by
  induction ns with
  | nil => simp
  | cons n ns ih =>
    rw [List.map_cons, List.sum_cons, ih, List.filter_cons]
    by_cases h : inv.contains n = true
    · simp only [h, if_true, List.length_cons]; push_cast; ring
    · simp only [h, if_false]; simp

theorem length_filter_contains (inv ns : List String) (hns : ns.Nodup) (hinv : inv.Nodup)
    (hsub : ∀ n ∈ inv, n ∈ ns) :
    (ns.filter (fun n => inv.contains n)).length = inv.length := by
  apply List.Perm.length_eq
  rw [List.perm_ext_iff_of_nodup (hns.filter _) hinv]
  intro n
  have hc : inv.contains n = true ↔ n ∈ inv := by simp
  rw [List.mem_filter, hc]
  exact ⟨fun h => h.2, fun h => ⟨hsub n h, h⟩⟩

theorem sum_contribution_split (members : List Member) (e : Expense) (inv : List String)
    (hinv : e.involved = some inv) :
    (members.map (fun m => contribution m.name e)).sum
      = ((members.map Member.name).map (fun n => if e.by_ = n then e.amount else 0)).sum
        - ((members.map Member.name).map
            (fun n => if inv.contains n = true then e.amount / (inv.length : ℚ) else 0)).sum := by
  induction members with
  | nil => simp
  | cons m ms ih =>
    have hm : contribution m.name e
        = (if e.by_ = m.name then e.amount else 0)
          - (if inv.contains m.name = true then e.amount / (inv.length : ℚ) else 0) := by
      simp [contribution, involvedIncludes, involvedLength, hinv]
    simp only [List.map_cons, List.sum_cons, hm, ih]
    ring

/-- Over a member list with distinct names, an expense whose `involved` is a
duplicate-free list of member names adds to the balances, in total, its amount
when the payer is a member, less its amount when somebody shares it. -/
theorem sum_contribution_members (members : List Member) (e : Expense) (inv : List String)
    (hnames : (members.map Member.name).Nodup) (hinv : e.involved = some inv)
    (hnd : inv.Nodup) (hsub : ∀ n ∈ inv, n ∈ members.map Member.name) :
    (members.map (fun m => contribution m.name e)).sum
      = (if e.by_ ∈ members.map Member.name then e.amount else 0)
        - (if inv = [] then 0 else e.amount) := by
  have hsplit := sum_contribution_split members e inv hinv
  rw [hsplit, sum_payer_indicator _ _ _ hnames, sum_share_indicator,
    length_filter_contains inv _ hnames hnd hsub]
  congr 1
  by_cases h0 : inv = []
  · simp [h0]
  · have hlen : (inv.length : ℚ) ≠ 0 := by
      exact_mod_cast fun h => h0 (List.length_eq_zero.1 h)
    simp only [h0, if_false]
    field_simp

theorem totalBalance_eq_sum (members : List Member) (expenses : Expenses) :
    totalBalance members expenses
      = ((values expenses).map
          (fun e => (members.map (fun m => contribution m.name e)).sum)).sum := by
  unfold totalBalance
  simp only [calcBalance_eq_sum]
  induction values expenses with
  | nil => simp
  | cons e es ih =>
    simp only [List.map_cons, List.sum_cons, List.sum_map_add, ih]

theorem sum_map_eq_zero {α : Type} (l : List α) (f : α → ℚ) (h : ∀ x ∈ l, f x = 0) :
    (l.map f).sum = 0 := by
  induction l with
  | nil => simp
  | cons x xs ih =>
    rw [List.map_cons, List.sum_cons, h x (List.mem_cons_self x xs),
      ih (fun y hy => h y (List.mem_cons_of_mem x hy)), add_zero]

/-- C2: with distinct member names, every `involved` a duplicate-free list of
member names and every payer among its own participants, the balances of all
members sum to exactly 0. -/
theorem totalBalance_eq_zero_of_payer_involved (members : List Member) (expenses : Expenses)
    (hnames : (members.map Member.name).Nodup)
    (hmodel : ∀ e ∈ values expenses, ∃ inv, e.involved = some inv ∧ inv.Nodup ∧
      (∀ n ∈ inv, n ∈ members.map Member.name) ∧ e.by_ ∈ inv) :
    totalBalance members expenses = 0 := by
  rw [totalBalance_eq_sum]
  apply sum_map_eq_zero
  intro e he
  obtain ⟨inv, hinv, hnd, hsub, hby⟩ := hmodel e he
  rw [sum_contribution_members members e inv hnames hinv hnd hsub]
  have hne : inv ≠ [] := List.ne_nil_of_mem hby
  simp [hsub _ hby, hne]

theorem totalBalance_eq_zero_of_payer_involved_witness :
    (annBob.map Member.name).Nodup ∧ totalBalance annBob annPays = 0 :=
  ⟨by decide, totalBalance_eq_zero_of_payer_involved annBob annPays (by decide) (by
    intro e he
    simp only [values, annPays, List.map_cons, List.map_nil, List.mem_singleton] at he
    subst he
    exact ⟨["Ann", "Bob"], rfl, by decide, by decide, by decide⟩)⟩

/-- C3 as stated fails: Ann and Bob are members, Ann pays 300 for Bob alone
(the data model holds and the payer is excluded), the payer-excluded amounts
sum to 300, yet the balances sum to 0. -/
theorem payerExcluded_sum_counterexample :
    (annBob.map Member.name).Nodup
      ∧ (∀ e ∈ values annPaysForBob, WellFormedExpense annBob e)
      ∧ payerExcludedTotal annPaysForBob = 300
      ∧ totalBalance annBob annPaysForBob = 0
      ∧ totalBalance annBob annPaysForBob ≠ payerExcludedTotal annPaysForBob := by
  have h1 : payerExcludedTotal annPaysForBob = 300 := by
    simp [payerExcludedTotal, values, annPaysForBob, payerExcluded, involvedIncludes]
  have h2 : totalBalance annBob annPaysForBob = 0 := by
    simp [totalBalance, annBob, calcBalance, values, annPaysForBob, calcBalanceStep,
      involvedIncludes, involvedLength]
  refine ⟨by decide, ?_, h1, h2, ?_⟩
  · intro e he
    simp only [values, annPaysForBob, List.map_cons, List.map_nil, List.mem_singleton] at he
    subst he
    exact ⟨by decide, ["Bob"], rfl, by decide, by decide, by decide⟩
  · rw [h1, h2]; norm_num

/-- C3 amended: with amounts taken as exact rationals, distinct member names
and every expense within the data model (payer a member, `involved` a
non-empty duplicate-free list of member names), the balances of all members
sum to 0 in exact arithmetic, payer-excluded expenses included. -/
theorem totalBalance_eq_zero_of_wellFormed (members : List Member) (expenses : Expenses)
    (hnames : (members.map Member.name).Nodup)
    (hmodel : ∀ e ∈ values expenses, WellFormedExpense members e) :
    totalBalance members expenses = 0 := by
  rw [totalBalance_eq_sum]
  apply sum_map_eq_zero
  intro e he
  obtain ⟨hby, inv, hinv, hne, hnd, hsub⟩ := hmodel e he
  rw [sum_contribution_members members e inv hnames hinv hnd hsub]
  simp [hby, hne]

theorem totalBalance_eq_zero_of_wellFormed_witness :
    (annBob.map Member.name).Nodup ∧ totalBalance annBob annPaysForBob = 0 :=
  ⟨by decide, totalBalance_eq_zero_of_wellFormed annBob annPaysForBob (by decide) (by
    intro e he
    simp only [values, annPaysForBob, List.map_cons, List.map_nil, List.mem_singleton] at he
    subst he
    exact ⟨by decide, ["Bob"], rfl, by decide, by decide, by decide⟩)⟩

theorem foldl_calcBalanceTracedStep (name : String) (es : List Expense) (st : ℚ × List Nat) :
    es.foldl (calcBalanceTracedStep name) st
      = (es.foldl (calcBalanceStep name) st.1, st.2 ++ divisors name es) := by
  induction es generalizing st with
  | nil => simp [divisors]
  | cons e es ih =>
    rw [List.foldl_cons, ih, List.foldl_cons]
    by_cases h : involvedIncludes e name = true
    · simp [calcBalanceTracedStep, calcBalanceStep, divisors, h, List.filter_cons]
    · simp [calcBalanceTracedStep, calcBalanceStep, divisors, h, List.filter_cons]

theorem calcBalanceTraced_eq (name : String) (expenses : Expenses) :
    calcBalanceTraced name expenses
      = (calcBalance name expenses, divisors name (values expenses)) := by
  simp [calcBalanceTraced, calcBalance, foldl_calcBalanceTracedStep]

theorem involvedLength_pos_of_includes (e : Expense) (name : String)
    (h : involvedIncludes e name = true) : involvedLength e ≠ 0 := by
  unfold involvedIncludes at h
  unfold involvedLength
  cases hinv : e.involved with
  | none => simp [hinv] at h
  | some inv =>
    simp only [hinv] at h
    have hmem : name ∈ inv := by simpa using h
    simpa using List.ne_nil_of_mem hmem

theorem zero_not_mem_divisors (name : String) (es : List Expense) :
    0 ∉ divisors name es := by
  intro h
  simp only [divisors, List.mem_map, List.mem_filter] at h
  obtain ⟨e, ⟨_, hinc⟩, hlen⟩ := h
  exact involvedLength_pos_of_includes e name hinc hlen

theorem involvedIncludes_of_empty (e : Expense) (name : String)
    (h : e.involved = none ∨ e.involved = some []) : involvedIncludes e name = false := by
  rcases h with h | h <;> simp [involvedIncludes, h]

/-- C4: an expense whose `involved` is empty or undefined, placed anywhere in
an expense mapping, changes `calcBalance(name, .)` by its amount when it was
paid by `name` and by 0 otherwise; the run performs no division for it (the
divisors used are those of the mapping without it) and never divides by zero. -/
theorem calcBalance_insert_of_involved_empty (e : Expense) (id name : String)
    (before after : Expenses) (h : e.involved = none ∨ e.involved = some []) :
    calcBalance name (before ++ (id, e) :: after)
        = calcBalance name (before ++ after) + (if e.by_ = name then e.amount else 0)
      ∧ (calcBalanceTraced name (before ++ (id, e) :: after)).1
        = calcBalance name (before ++ (id, e) :: after)
      ∧ (calcBalanceTraced name (before ++ (id, e) :: after)).2
        = (calcBalanceTraced name (before ++ after)).2
      ∧ 0 ∉ (calcBalanceTraced name (before ++ (id, e) :: after)).2 := by
  have hinc := involvedIncludes_of_empty e name h
  refine ⟨?_, ?_, ?_, ?_⟩
  · simp only [calcBalance_eq_sum, values, List.map_append, List.map_cons, List.sum_append,
      List.sum_cons, contribution, hinc]
    simp only [Bool.false_eq_true, if_false, sub_zero]
    ring
  · rw [calcBalanceTraced_eq]
  · simp only [calcBalanceTraced_eq, divisors, values, List.map_append, List.map_cons,
      List.filter_append, List.filter_cons, hinc]
    simp
  · rw [calcBalanceTraced_eq]
    exact zero_not_mem_divisors name _

theorem calcBalance_insert_of_involved_empty_witness :
    (emptySplit.involved = none ∨ emptySplit.involved = some [])
      ∧ calcBalance "Bob" (annPays ++ ("e2", emptySplit) :: [])
        = calcBalance "Bob" (annPays ++ []) + 0
      ∧ (undefinedSplit.involved = none ∨ undefinedSplit.involved = some [])
      ∧ calcBalance "Bob" (annPays ++ ("e3", undefinedSplit) :: [])
        = calcBalance "Bob" (annPays ++ []) + 40 :=
  ⟨Or.inr rfl,
    (calcBalance_insert_of_involved_empty emptySplit "e2" "Bob" annPays [] (Or.inr rfl)).1,
    Or.inl rfl,
    (calcBalance_insert_of_involved_empty undefinedSplit "e3" "Bob" annPays [] (Or.inl rfl)).1⟩

/-- C5: `calcBalance` gives the same value for two expense mappings whose
value sequences are permutations of each other. -/
theorem calcBalance_perm (name : String) (es1 es2 : Expenses)
    (h : (values es1).Perm (values es2)) :
    calcBalance name es1 = calcBalance name es2 := by
  rw [calcBalance_eq_sum, calcBalance_eq_sum]
  exact (h.map (contribution name)).sum_eq

theorem calcBalance_perm_witness :
    (values ledgerAB).Perm (values ledgerBA)
      ∧ calcBalance "Ann" ledgerAB = calcBalance "Ann" ledgerBA :=
  ⟨List.Perm.swap _ _ _, calcBalance_perm "Ann" ledgerAB ledgerBA (List.Perm.swap _ _ _)⟩

theorem getProp_setProp_same (o : Obj) (k : String) (v : Val) :
    getProp (setProp o k v) k = some v := by
  induction o with
  | nil => simp [setProp, getProp]
  | cons kv rest ih =>
    obtain ⟨k', v'⟩ := kv
    by_cases h : k' = k
    · simp [setProp, getProp, h]
    · simp [setProp, getProp, h, ih]

theorem getProp_setProp_other (o : Obj) (k k2 : String) (v : Val) (hne : k ≠ k2) :
    getProp (setProp o k v) k2 = getProp o k2 := by
  induction o with
  | nil => simp [setProp, getProp, hne]
  | cons kv rest ih =>
    obtain ⟨k', v'⟩ := kv
    by_cases h : k' = k
    · subst h; simp [setProp, getProp, hne]
    · by_cases h2 : k' = k2
      · subst h2; simp [setProp, getProp, h]
      · simp [setProp, getProp, h, h2, ih]

theorem getProp_assign_of_not_mem (target src : Obj) (k : String) (hk : k ∉ keys src) :
    getProp (assign target src) k = getProp target k := by
  induction src generalizing target with
  | nil => rfl
  | cons kv rest ih =>
    obtain ⟨k1, v1⟩ := kv
    have hk1 : k1 ≠ k := fun h => hk (by simp [keys, h])
    have hrest : k ∉ keys rest := fun h => hk (by simp [keys] at h ⊢; exact Or.inr h)
    have hstep : assign target ((k1, v1) :: rest) = assign (setProp target k1 v1) rest := rfl
    rw [hstep, ih _ hrest, getProp_setProp_other _ _ _ _ hk1]

theorem getProp_assign_of_mem (target src : Obj) (k : String) (v : Val)
    (hnd : (keys src).Nodup) (hmem : (k, v) ∈ src) :
    getProp (assign target src) k = some v := by
  induction src generalizing target with
  | nil => simp at hmem
  | cons kv rest ih =>
    obtain ⟨k1, v1⟩ := kv
    have hstep : assign target ((k1, v1) :: rest) = assign (setProp target k1 v1) rest := rfl
    have hnd2 : k1 ∉ keys rest ∧ (keys rest).Nodup := by
      simpa [keys] using hnd
    rw [hstep]
    rcases List.mem_cons.1 hmem with h | h
    · obtain ⟨rfl, rfl⟩ := Prod.mk.inj h
      rw [getProp_assign_of_not_mem _ _ _ hnd2.1, getProp_setProp_same]
    · exact ih _ hnd2.2 h

theorem getProp_eq_none_of_not_mem (o : Obj) (k : String) (hk : k ∉ keys o) :
    getProp o k = none := by
  induction o with
  | nil => rfl
  | cons kv rest ih =>
    obtain ⟨k', v'⟩ := kv
    have h1 : k' ≠ k := fun h => hk (by simp [keys, h])
    have h2 : k ∉ keys rest := fun h => hk (by simp [keys] at h ⊢; exact Or.inr h)
    simp [getProp, h1, ih h2]

theorem getProp_of_mem (o : Obj) (k : String) (v : Val) (hnd : (keys o).Nodup)
    (hmem : (k, v) ∈ o) : getProp o k = some v := by
  induction o with
  | nil => simp at hmem
  | cons kv rest ih =>
    obtain ⟨k1, v1⟩ := kv
    have hnd2 : k1 ∉ keys rest ∧ (keys rest).Nodup := by simpa [keys] using hnd
    rcases List.mem_cons.1 hmem with h | h
    · obtain ⟨rfl, rfl⟩ := Prod.mk.inj h
      simp [getProp]
    · have hne : k1 ≠ k := by
        intro heq
        apply hnd2.1
        rw [heq]
        exact List.mem_map.2 ⟨(k, v), h, rfl⟩
      simp only [getProp, hne, if_false]
      exact ih hnd2.2 h

theorem getProp_copy (o : Obj) (k : String) (hnd : (keys o).Nodup) :
    getProp (assign [] o) k = getProp o k := by
  by_cases hk : k ∈ keys o
  · obtain ⟨kv, hkv, hfst⟩ := List.mem_map.1 hk
    obtain ⟨k', v'⟩ := kv
    simp only at hfst
    subst hfst
    rw [getProp_assign_of_mem [] o k' v' hnd hkv, getProp_of_mem o k' v' hnd hkv]
  · rw [getProp_assign_of_not_mem _ _ _ hk, getProp_eq_none_of_not_mem o k hk]
    rfl

theorem keys_setProp (o : Obj) (k : String) (v : Val) :
    keys (setProp o k v) = if k ∈ keys o then keys o else keys o ++ [k] := by
  induction o with
  | nil => simp [setProp, keys]
  | cons kv rest ih =>
    obtain ⟨k', v'⟩ := kv
    by_cases h : k' = k
    · subst h; simp [setProp, keys]
    · have h2 : ¬ k = k' := fun e => h e.symm
      have ih2 : List.map Prod.fst (setProp rest k v)
          = if k ∈ List.map Prod.fst rest then List.map Prod.fst rest
            else List.map Prod.fst rest ++ [k] := ih
      by_cases hm : k ∈ List.map Prod.fst rest
      · simp only [setProp, keys, h, if_false, List.map_cons, ih2, hm, if_true,
          List.mem_cons, or_true]
      · simp only [setProp, keys, h, if_false, List.map_cons, ih2, hm, List.mem_cons, h2,
          or_self, List.cons_append]

theorem nodup_keys_setProp (o : Obj) (k : String) (v : Val) (hnd : (keys o).Nodup) :
    (keys (setProp o k v)).Nodup := by
  rw [keys_setProp]
  by_cases h : k ∈ keys o
  · simpa [h] using hnd
  · simp only [h, if_false]
    exact List.Nodup.append hnd (List.nodup_singleton k) (by
      intro x hx hx2
      rw [List.mem_singleton] at hx2
      exact h (hx2 ▸ hx))

theorem nodup_keys_assign (target src : Obj) (hnd : (keys target).Nodup) :
    (keys (assign target src)).Nodup := by
  induction src generalizing target with
  | nil => exact hnd
  | cons kv rest ih => exact ih _ (nodup_keys_setProp target kv.1 kv.2 hnd)

/-- C6: after `update(partial)` every field named in `partial` holds the value
`partial` gives it, so a nested value such as `expenses` is the new one and
nothing of the old one is merged in; every field `partial` does not name
reads as before; the subscriber list is the same, and the new state is again
an object with distinct keys. -/
theorem update_shallow_merge {W : Type} (s : TripState W) (fragment : Obj) (w : W)
    (hdata : (keys s.data).Nodup) (hupd : (keys fragment).Nodup) :
    (∀ k v, (k, v) ∈ fragment → getProp (s.update fragment w).1.data k = some v)
      ∧ (∀ k, k ∉ keys fragment →
          getProp (s.update fragment w).1.data k = getProp s.data k)
      ∧ (s.update fragment w).1.subscribers = s.subscribers
      ∧ (keys (s.update fragment w).1.data).Nodup := by
  refine ⟨fun k v hkv => ?_, fun k hk => ?_, rfl,
    nodup_keys_assign _ _ (nodup_keys_assign _ _ List.nodup_nil)⟩
  · exact getProp_assign_of_mem _ _ k v hupd hkv
  · show getProp (assign (assign [] s.data) fragment) k = getProp s.data k
    rw [getProp_assign_of_not_mem _ _ _ hk, getProp_copy _ _ hdata]

theorem update_shallow_merge_witness :
    getProp (storeWithA.update fragmentB ()).1.data "expenses"
        = some (Val.expenses [("b", undefinedSplit)])
      ∧ getProp (storeWithA.update fragmentB ()).1.data "currentGroupId"
        = getProp storeWithA.data "currentGroupId" :=
  ⟨(update_shallow_merge storeWithA fragmentB () (by decide) (by decide)).1
      "expenses" _ (List.mem_singleton.2 rfl),
    (update_shallow_merge storeWithA fragmentB () (by decide) (by decide)).2.1
      "currentGroupId" (by decide)⟩

theorem subscribeAll_eq {W : Type} (s : TripState W) (fns : List (Callback W)) (w : W) :
    subscribeAll s fns w
      = ({ data := s.data, subscribers := s.subscribers ++ fns }, w) := by
  unfold subscribeAll
  induction fns generalizing s with
  | nil => simp
  | cons fn rest ih =>
    rw [List.foldl_cons]
    have hstep : (s, w).1.subscribe fn (s, w).2
        = (({ data := s.data, subscribers := s.subscribers ++ [fn] } : TripState W), w) := rfl
    rw [hstep, ih]
    simp

theorem forEachCallback_of_returns {W : Type} (d : Obj) (fns : List (Callback W)) (w : W)
    (hret : ∀ fn ∈ fns, ∀ d0 w0, ∃ w1, fn d0 w0 = Except.ok w1) :
    forEachCallback d fns w
      = Except.ok (fns.foldl (fun acc fn => worldOf (fn d acc)) w) := by
  induction fns generalizing w with
  | nil => rfl
  | cons fn rest ih =>
    obtain ⟨w1, hw1⟩ := hret fn (List.mem_cons_self _ _) d w
    have hrest : ∀ g ∈ rest, ∀ d0 w0, ∃ w2, g d0 w0 = Except.ok w2 :=
      fun g hg => hret g (List.mem_cons_of_mem _ hg)
    simp only [forEachCallback, hw1, List.foldl_cons, worldOf]
    exact ih w1 hrest

theorem forEachCallback_recorder (d : Obj) (tags : List Nat) (log : List (Nat × Obj)) :
    forEachCallback d (tags.map recorder) log
      = Except.ok (log ++ tags.map (fun t => (t, d))) := by
  induction tags generalizing log with
  | nil => simp [forEachCallback]
  | cons t rest ih =>
    simp only [List.map_cons, forEachCallback, recorder]
    rw [show forEachCallback d (List.map recorder rest) (log ++ [(t, d)])
        = Except.ok ((log ++ [(t, d)]) ++ rest.map (fun t => (t, d))) from ih _]
    simp

/-- C7 as stated fails: with a callback that throws registered first and a
recording callback second, `update` ends at the exception with an empty log:
the second callback is never invoked. -/
theorem update_stops_at_throw_counterexample :
    (subscribeAll (TripState.initial (List (Nat × Obj))) [thrower, recorder 1] []).1.subscribers
        = [thrower, recorder 1]
      ∧ ((subscribeAll (TripState.initial (List (Nat × Obj))) [thrower, recorder 1] []).1.update
          fragmentB []).2 = Except.error []
      ∧ worldOf ((subscribeAll (TripState.initial (List (Nat × Obj))) [thrower, recorder 1]
          []).1.update fragmentB []).2 = [] := by
  refine ⟨rfl, rfl, rfl⟩

/-- C7 amended: `subscribe` invokes nothing; when no registered callback
throws (and none calls back into the store), one `update(partial)` runs the
callbacks registered before and during the run, each once and in registration
order, and hands each the new state of the store, in which every field named
in `partial` reads the value `partial` gives and every other field reads as
before; recording callbacks on a fresh store log one entry each, in
registration order, all holding that new state. -/
theorem update_notifies_in_order {W : Type} (s : TripState W) (fns : List (Callback W))
    (fragment : Obj) (w : W)
    (hdata : (keys s.data).Nodup) (hfrag : (keys fragment).Nodup)
    (hret : ∀ fn ∈ s.subscribers ++ fns, ∀ d0 w0, ∃ w1, fn d0 w0 = Except.ok w1) :
    (subscribeAll s fns w).2 = w
      ∧ (subscribeAll s fns w).1.subscribers = s.subscribers ++ fns
      ∧ (∀ k v, (k, v) ∈ fragment →
          getProp ((subscribeAll s fns w).1.update fragment w).1.data k = some v)
      ∧ (∀ k, k ∉ keys fragment →
          getProp ((subscribeAll s fns w).1.update fragment w).1.data k = getProp s.data k)
      ∧ ((subscribeAll s fns w).1.update fragment w).2
        = Except.ok ((s.subscribers ++ fns).foldl
            (fun acc fn =>
              worldOf (fn ((subscribeAll s fns w).1.update fragment w).1.data acc)) w)
      ∧ (∀ tags : List Nat,
          ((subscribeAll (TripState.initial (List (Nat × Obj))) (tags.map recorder) []).1.update
              fragment []).2
            = Except.ok (tags.map (fun t =>
                (t, ((TripState.initial (List (Nat × Obj))).update fragment []).1.data)))
          ∧ ∀ k v, (k, v) ∈ fragment →
              getProp ((TripState.initial (List (Nat × Obj))).update fragment []).1.data k
                = some v) := by
  rw [subscribeAll_eq]
  refine ⟨rfl, rfl, fun k v hkv => ?_, fun k hk => ?_, ?_, fun tags => ⟨?_, fun k v hkv => ?_⟩⟩
  · exact getProp_assign_of_mem _ _ k v hfrag hkv
  · show getProp (assign (assign [] s.data) fragment) k = getProp s.data k
    rw [getProp_assign_of_not_mem _ _ _ hk, getProp_copy _ _ hdata]
  · exact forEachCallback_of_returns _ _ w hret
  · rw [subscribeAll_eq]
    show forEachCallback _ ([] ++ tags.map recorder) [] = _
    rw [List.nil_append, forEachCallback_recorder]
    simp [TripState.update]
  · exact getProp_assign_of_mem _ _ k v hfrag hkv

theorem update_notifies_in_order_witness :
    ((subscribeAll (TripState.initial (List (Nat × Obj))) [recorder 1, recorder 2] []).1.update
        fragmentB []).2
      = Except.ok [(1, ((TripState.initial (List (Nat × Obj))).update fragmentB []).1.data),
          (2, ((TripState.initial (List (Nat × Obj))).update fragmentB []).1.data)]
      ∧ getProp ((TripState.initial (List (Nat × Obj))).update fragmentB []).1.data "expenses"
        = some (Val.expenses [("b", undefinedSplit)]) :=
  ⟨((update_notifies_in_order (TripState.initial (List (Nat × Obj))) [recorder 1, recorder 2]
      fragmentB [] (by decide) (by decide) (by
        intro fn hfn d0 w0
        simp only [TripState.initial, List.nil_append, List.mem_cons, List.mem_singleton,
          List.not_mem_nil, or_false] at hfn
        rcases hfn with rfl | rfl <;> exact ⟨_, rfl⟩)).2.2.2.2.2 [1, 2]).1,
    ((update_notifies_in_order (TripState.initial (List (Nat × Obj))) [recorder 1, recorder 2]
      fragmentB [] (by decide) (by decide) (by
        intro fn hfn d0 w0
        simp only [TripState.initial, List.nil_append, List.mem_cons, List.mem_singleton,
          List.not_mem_nil, or_false] at hfn
        rcases hfn with rfl | rfl <;> exact ⟨_, rfl⟩)).2.2.2.2.2 [1, 2]).2
      "expenses" _ (List.mem_singleton.2 rfl)⟩

theorem foldl_add_amount (es : List Expense) (a : ℚ) :
    es.foldl (fun a c => a + c.amount) a = a + (es.map (fun e => e.amount)).sum := by
  induction es generalizing a with
  | nil => simp
  | cons e es ih => simp only [List.foldl_cons, ih, List.map_cons, List.sum_cons]; ring

theorem balanceClass_mem (q : ℚ) : balanceClasses.contains (balanceClass q) = true := by
  unfold balanceClass balanceClasses
  by_cases h1 : q > 0
  · simp [h1]
  · by_cases h2 : q < 0 <;> simp [h1, h2]

theorem filter_balanceClasses_add_remove (classList : List String) (c : String)
    (hc : balanceClasses.contains c = true) :
    (classListAdd (classListRemove classList balanceClasses) c).filter
        (fun x => balanceClasses.contains x) = [c] := by
  have hc2 : c ∈ balanceClasses := by simpa using hc
  have hnot : (classListRemove classList balanceClasses).contains c = false := by
    rw [Bool.eq_false_iff]
    intro h
    have hmem : c ∈ classListRemove classList balanceClasses := by simpa using h
    have := (List.mem_filter.1 hmem).2
    simp [hc2] at this
  have hempty : (classListRemove classList balanceClasses).filter
      (fun x => balanceClasses.contains x) = [] := by
    rw [List.filter_eq_nil_iff]
    intro x hx
    have := (List.mem_filter.1 hx).2
    simpa using this
  unfold classListAdd
  rw [hnot]
  simp only [Bool.false_eq_true, if_false, List.filter_append, hempty, List.nil_append]
  simp [List.filter_cons, hc2]

/-- C8: `reconcileFinancials` writes `toCurrency` of the sum of all amounts,
of the sum of the amounts paid by the user's short name and of
`calcBalance(short name, expenses)`; of the three balance classes the balance
element ends with exactly one, once: emerald iff the net balance is positive,
rose iff it is negative, indigo iff it is zero. -/
theorem reconcileFinancials_emits (toCurrency : ℚ → String) (expenses : Expenses)
    (currentUser : Option User) (nodes : FinancialNodes) :
    (reconcileFinancials toCurrency expenses currentUser nodes).totalVal.innerText
        = toCurrency (((values expenses).map (fun e => e.amount)).sum)
      ∧ (reconcileFinancials toCurrency expenses currentUser nodes).userVal.innerText
        = toCurrency ((((values expenses).filter
            (fun e => decide (e.by_ = userShort currentUser))).map (fun e => e.amount)).sum)
      ∧ (reconcileFinancials toCurrency expenses currentUser nodes).balVal.innerText
        = toCurrency (calcBalance (userShort currentUser) expenses)
      ∧ (reconcileFinancials toCurrency expenses currentUser nodes).balVal.classList.filter
          (fun c => balanceClasses.contains c)
        = [balanceClass (calcBalance (userShort currentUser) expenses)]
      ∧ (balanceClass (calcBalance (userShort currentUser) expenses) = "text-emerald-500"
          ↔ calcBalance (userShort currentUser) expenses > 0)
      ∧ (balanceClass (calcBalance (userShort currentUser) expenses) = "text-rose-500"
          ↔ calcBalance (userShort currentUser) expenses < 0)
      ∧ (balanceClass (calcBalance (userShort currentUser) expenses) = "text-indigo-600"
          ↔ calcBalance (userShort currentUser) expenses = 0) := by
  refine ⟨?_, ?_, rfl, ?_, ?_, ?_, ?_⟩
  · simp [reconcileFinancials, foldl_add_amount]
  · simp [reconcileFinancials, foldl_add_amount]
  · exact filter_balanceClasses_add_remove _ _ (balanceClass_mem _)
  · generalize calcBalance (userShort currentUser) expenses = q
    unfold balanceClass
    by_cases h1 : q > 0
    · simp [h1]
    · by_cases h2 : q < 0
      · simp [h1, h2]
      · simp [h1, h2]
  · generalize calcBalance (userShort currentUser) expenses = q
    unfold balanceClass
    by_cases h1 : q > 0
    · have h3 : ¬ q < 0 := not_lt.2 (le_of_lt h1)
      simp [h1, h3]
    · by_cases h2 : q < 0
      · simp [h1, h2]
      · simp [h1, h2]
  · generalize calcBalance (userShort currentUser) expenses = q
    unfold balanceClass
    by_cases h1 : q > 0
    · simp [h1, ne_of_gt h1]
    · by_cases h2 : q < 0
      · simp [h1, h2, ne_of_lt h2]
      · have : q = 0 := le_antisymm (not_lt.1 h1) (not_lt.1 h2)
        simp [this]

theorem perm_sortInsert {α : Type} (cmp : α → α → Int) (a : α) (l : List α) :
    (sortInsert cmp a l).Perm (a :: l) := by
  induction l with
  | nil => exact List.Perm.refl _
  | cons b rest ih =>
    unfold sortInsert
    by_cases h : cmp a b ≤ 0
    · simp only [h, if_true]; exact List.Perm.refl _
    · simp only [h, if_false]
      exact ((List.Perm.cons b ih).trans (List.Perm.swap a b rest))

theorem perm_arraySort {α : Type} (cmp : α → α → Int) (l : List α) :
    (arraySort cmp l).Perm l := by
  induction l with
  | nil => exact List.Perm.refl _
  | cons a rest ih =>
    exact (perm_sortInsert cmp a (arraySort cmp rest)).trans (List.Perm.cons a ih)

theorem pairwise_sortInsert_feed (a : String × Expense) (l : Expenses)
    (hl : l.Pairwise (fun x y => y.2.timestamp ≤ x.2.timestamp)) :
    (sortInsert feedCompare a l).Pairwise (fun x y => y.2.timestamp ≤ x.2.timestamp) := by
  induction l with
  | nil => simp [sortInsert]
  | cons b rest ih =>
    have hb := List.pairwise_cons.1 hl
    unfold sortInsert
    by_cases h : feedCompare a b ≤ 0
    · simp only [h, if_true]
      have hab : b.2.timestamp ≤ a.2.timestamp := by
        unfold feedCompare at h; omega
      refine List.pairwise_cons.2 ⟨?_, hl⟩
      intro y hy
      rcases List.mem_cons.1 hy with rfl | hy
      · exact hab
      · exact le_trans (hb.1 y hy) hab
    · simp only [h, if_false]
      have hab : a.2.timestamp ≤ b.2.timestamp := by
        unfold feedCompare at h; omega
      refine List.pairwise_cons.2 ⟨?_, ih hb.2⟩
      intro y hy
      rcases List.mem_cons.1 ((perm_sortInsert feedCompare a rest).mem_iff.1 hy) with rfl | hy
      · exact hab
      · exact hb.1 y hy

theorem pairwise_arraySort_feed (l : Expenses) :
    (arraySort feedCompare l).Pairwise (fun x y => y.2.timestamp ≤ x.2.timestamp) := by
  induction l with
  | nil => exact List.Pairwise.nil
  | cons a rest ih => exact pairwise_sortInsert_feed a _ ih

theorem filter_sortInsert_feed (t : Int) (a : String × Expense) (l : Expenses) :
    (sortInsert feedCompare a l).filter (fun x => decide (x.2.timestamp = t))
      = (a :: l).filter (fun x => decide (x.2.timestamp = t)) := by
  induction l with
  | nil => simp [sortInsert]
  | cons b rest ih =>
    unfold sortInsert
    by_cases h : feedCompare a b ≤ 0
    · simp only [h, if_true]
    · simp only [h, if_false]
      have hab : a.2.timestamp < b.2.timestamp := by
        unfold feedCompare at h; omega
      rw [List.filter_cons, ih]
      by_cases ha : a.2.timestamp = t
      · have hbt : ¬ b.2.timestamp = t := by omega
        simp [List.filter_cons, ha, hbt]
      · by_cases hbt : b.2.timestamp = t
        · simp [List.filter_cons, ha, hbt]
        · simp [List.filter_cons, ha, hbt]

theorem filter_arraySort_feed (t : Int) (l : Expenses) :
    (arraySort feedCompare l).filter (fun x => decide (x.2.timestamp = t))
      = l.filter (fun x => decide (x.2.timestamp = t)) := by
  induction l with
  | nil => rfl
  | cons a rest ih =>
    show (sortInsert feedCompare a (arraySort feedCompare rest)).filter _ = _
    rw [filter_sortInsert_feed, List.filter_cons, List.filter_cons, ih]

theorem rendered_renderFeedUI (expenses : Expenses) :
    (renderFeedUI expenses).rendered = arraySort feedCompare expenses := by
  unfold renderFeedUI
  by_cases h : (arraySort feedCompare expenses).length = 0
  · simp only [h, if_true, FeedView.rendered]
    exact (List.length_eq_zero.1 h).symm
  · simp only [h, if_false, FeedView.rendered]

/-- C9: the cards `renderFeedUI` renders are a permutation of the mapping's
entries, their timestamps never increase down the feed, and the entries that
share a timestamp come in their mapping order. -/
theorem renderFeedUI_sorted_stable (expenses : Expenses) :
    (renderFeedUI expenses).rendered.Perm expenses
      ∧ (renderFeedUI expenses).rendered.Pairwise
          (fun x y => y.2.timestamp ≤ x.2.timestamp)
      ∧ ∀ t : Int,
          (renderFeedUI expenses).rendered.filter (fun x => decide (x.2.timestamp = t))
            = expenses.filter (fun x => decide (x.2.timestamp = t)) := by
  rw [rendered_renderFeedUI]
  exact ⟨perm_arraySort _ _, pairwise_arraySort_feed _, fun t => filter_arraySort_feed t _⟩

theorem lower_admin (L : LowerCase) :
    L.toLowerCase TRIP_PRO_CONFIG.ADMIN_PRIVILEGE = TRIP_PRO_CONFIG.ADMIN_PRIVILEGE := by
  rw [L.ascii TRIP_PRO_CONFIG.ADMIN_PRIVILEGE (by decide)]
  decide

/-- C10: `execute` on the configured admin identity only issues the warning:
whatever the confirmation dialog would answer and whether or not a write
would go through, no dialog is shown, no member list is written and the
session's and the cloud's member lists are as before. -/
theorem execute_admin_rejected (L : LowerCase) (confirmAnswer writeOk : Bool) (w : World) :
    (RevocationService.execute L TRIP_PRO_CONFIG.ADMIN_PRIVILEGE confirmAnswer writeOk
          w).toasts
        = w.toasts ++ [⟨"Root Admin protection is active üõ°Ô∏è", "warning"⟩]
      ∧ (RevocationService.execute L TRIP_PRO_CONFIG.ADMIN_PRIVILEGE confirmAnswer writeOk
          w).cloudMembers = w.cloudMembers
      ∧ (RevocationService.execute L TRIP_PRO_CONFIG.ADMIN_PRIVILEGE confirmAnswer writeOk
          w).groupMembers = w.groupMembers
      ∧ (RevocationService.execute L TRIP_PRO_CONFIG.ADMIN_PRIVILEGE confirmAnswer writeOk
          w).confirms = w.confirms
      ∧ (RevocationService.execute L TRIP_PRO_CONFIG.ADMIN_PRIVILEGE confirmAnswer writeOk
          w).currentGroupId = w.currentGroupId := by
  unfold RevocationService.execute
  rw [if_pos (lower_admin L)]
  exact ⟨rfl, rfl, rfl, rfl, rfl⟩

theorem readMembers_writeMembers (cloud : List (String × List Member)) (path : String)
    (ms : List Member) : readMembers (writeMembers cloud path ms) path = some ms := by
  induction cloud with
  | nil => simp [writeMembers, readMembers]
  | cons entry rest ih =>
    obtain ⟨p, old⟩ := entry
    by_cases h : p = path
    · simp [writeMembers, readMembers, h]
    · simp [writeMembers, readMembers, h, ih]

theorem execute_guard_of_confirm (L : LowerCase) (email : String) (writeOk : Bool) (w : World)
    (hshown : (RevocationService.execute L email true writeOk w).confirms ≠ w.confirms) :
    L.toLowerCase email ≠ TRIP_PRO_CONFIG.ADMIN_PRIVILEGE := by
  intro hguard
  apply hshown
  unfold RevocationService.execute
  rw [if_pos hguard]

theorem execute_confirmed (L : LowerCase) (email : String) (w : World)
    (h : L.toLowerCase email ≠ TRIP_PRO_CONFIG.ADMIN_PRIVILEGE) :
    (RevocationService.execute L email true true w).cloudMembers
      = writeMembers w.cloudMembers (groupPath w.currentGroupId)
          (revocationFilter L w.groupMembers email) := by
  unfold RevocationService.execute
  rw [if_neg h]
  rfl

/-- C11: once the confirmation dialog has been shown and answered yes, which
happens only for an email that is not the admin identity, `execute` stores
under the active group's path exactly the members whose lower-cased email
differs from the lower-cased `email`: a sublist of the member list, each kept
member unchanged and in its original order, and no member left whose email
matches ignoring case; a write that is refused stores nothing and is
reported. -/
theorem execute_writes_filtered (L : LowerCase) (email : String) (w : World)
    (hshown : (RevocationService.execute L email true true w).confirms ≠ w.confirms) :
    readMembers (RevocationService.execute L email true true w).cloudMembers
        (groupPath w.currentGroupId)
      = some (revocationFilter L w.groupMembers email)
      ∧ (revocationFilter L w.groupMembers email).Sublist w.groupMembers
      ∧ (∀ m, m ∈ revocationFilter L w.groupMembers email
          ↔ m ∈ w.groupMembers ∧ L.toLowerCase m.email ≠ L.toLowerCase email)
      ∧ (RevocationService.execute L email true true w).groupMembers = w.groupMembers
      ∧ (RevocationService.execute L email true false w).cloudMembers = w.cloudMembers
      ∧ (RevocationService.execute L email true false w).toasts
        = w.toasts ++ [⟨"API Authorization Denied ‚ùå", "error"⟩]
      ∧ email ≠ TRIP_PRO_CONFIG.ADMIN_PRIVILEGE := by
  have h := execute_guard_of_confirm L email true w hshown
  refine ⟨?_, List.filter_sublist _, fun m => ?_, ?_, ?_, ?_, ?_⟩
  · rw [execute_confirmed L email w h, readMembers_writeMembers]
  · simp [revocationFilter, List.mem_filter]
  · unfold RevocationService.execute
    rw [if_neg h]
    rfl
  · unfold RevocationService.execute
    rw [if_neg h]
    rfl
  · unfold RevocationService.execute
    rw [if_neg h]
    rfl
  · intro heq
    exact h (heq ▸ lower_admin L)

theorem execute_writes_filtered_witness :
    readMembers (RevocationService.execute asciiOnly "BOB@x.io" true true sampleWorld).cloudMembers
        (groupPath sampleWorld.currentGroupId)
      = some [{ name := "Ann", email := "ann@x.io", uid := "u1" }]
      ∧ readMembers
          (RevocationService.execute latinLower "BÖB@x.io" true true umlautWorld).cloudMembers
          (groupPath umlautWorld.currentGroupId)
        = some [{ name := "Ann", email := "ann@x.io", uid := "u1" }] :=
  ⟨(execute_writes_filtered asciiOnly "BOB@x.io" sampleWorld (by decide)).1.trans
      (by decide),
    (execute_writes_filtered latinLower "BÖB@x.io" umlautWorld (by decide)).1.trans
      (by decide)⟩

theorem readExpenses_removeNode (cloud : List (String × Expenses)) (path : String) :
    readExpenses (removeNode cloud path) path = none := by
  induction cloud with
  | nil => rfl
  | cons entry rest ih =>
    obtain ⟨p, es⟩ := entry
    by_cases h : p = path
    · have : removeNode ((p, es) :: rest) path = removeNode rest path := by
        simp [removeNode, h]
      rw [this, ih]
    · have : removeNode ((p, es) :: rest) path = (p, es) :: removeNode rest path := by
        simp [removeNode, h]
      rw [this]
      simp [readExpenses, h, ih]

/-- C12: `hardReset` calls for the removal of the active group's expenses
exactly when a group id is set and the prompt returned `PURGE`, and a removal
that goes through leaves nothing stored there; with a group id set and any
other answer (cancelled, empty, other case, padded) nothing is removed and
the only effect after the prompt is the informational notice; with no group
id set nothing happens at all. -/
theorem hardReset_guarded (challenge : Option String) (removeOk : Bool) (w : LedgerWorld) :
    ((RevocationService.hardReset challenge removeOk w).removeCalls
          = w.removeCalls ++ [groupPath w.currentGroupId ++ "/expenses"]
        ↔ groupIdSet w.currentGroupId = true ∧ challenge = some "PURGE")
      ∧ (groupIdSet w.currentGroupId = true → challenge = some "PURGE" → removeOk = true →
          readExpenses (RevocationService.hardReset challenge removeOk w).cloudExpenses
            (groupPath w.currentGroupId ++ "/expenses") = none)
      ∧ (groupIdSet w.currentGroupId = true → challenge ≠ some "PURGE" →
          RevocationService.hardReset challenge removeOk w
            = { w with
                prompts := w.prompts ++ [purgePrompt],
                toasts := w.toasts ++ [⟨"Security Overridden: Reset Aborted", "info"⟩] })
      ∧ (groupIdSet w.currentGroupId = false →
          RevocationService.hardReset challenge removeOk w = w)
      ∧ (none : Option String) ≠ some "PURGE" ∧ some "" ≠ some "PURGE"
      ∧ some "purge" ≠ some "PURGE" ∧ some " PURGE " ≠ some "PURGE" := by
  refine ⟨?_, ?_, ?_, ?_, by decide, by decide, by decide, by decide⟩
  · by_cases hg : groupIdSet w.currentGroupId = true
    · by_cases hc : challenge = some "PURGE"
      · cases removeOk <;> simp [RevocationService.hardReset, hg, hc]
      · simp [RevocationService.hardReset, hg, hc]
    · simp [RevocationService.hardReset, hg]
  · intro hg hc hr
    subst hr
    simp only [RevocationService.hardReset, hg, hc]
    exact readExpenses_removeNode _ _
  · intro hg hc
    simp [RevocationService.hardReset, hg, hc]
  · intro hg
    simp [RevocationService.hardReset, hg]

theorem hardReset_guarded_witness :
    readExpenses (RevocationService.hardReset (some "PURGE") true sampleLedger).cloudExpenses
        (groupPath sampleLedger.currentGroupId ++ "/expenses") = none
      ∧ RevocationService.hardReset (some "purge") true sampleLedger
        = { sampleLedger with
            prompts := sampleLedger.prompts ++ [purgePrompt],
            toasts := sampleLedger.toasts ++ [⟨"Security Overridden: Reset Aborted", "info"⟩] } :=
  ⟨(hardReset_guarded (some "PURGE") true sampleLedger).2.1 (by decide) rfl rfl,
    (hardReset_guarded (some "purge") true sampleLedger).2.2.1 (by decide) (by decide)⟩

theorem toggleChip_no_active_chip (c : Chip) (h : "active-chip" ∉ c.classList) :
    "active-chip" ∉ (toggleChip c).classList := by
  unfold toggleChip classListToggle
  by_cases hc : c.classList.contains "chip-active" = true
  · simp only [hc, if_true]
    intro hmem
    exact h (List.mem_filter.1 hmem).1
  · simp only [hc, if_false]
    intro hmem
    rcases List.mem_append.1 hmem with h1 | h1
    · exact h h1
    · simp at h1

theorem clickChip_no_active_chip (i : Nat) (chips : List Chip)
    (h : ∀ c ∈ chips, "active-chip" ∉ c.classList) :
    ∀ c ∈ clickChip i chips, "active-chip" ∉ c.classList := by
  induction chips generalizing i with
  | nil => intro c hc; simp [clickChip] at hc
  | cons d rest ih =>
    cases i with
    | zero =>
      intro c hc
      rcases List.mem_cons.1 hc with rfl | hc
      · exact toggleChip_no_active_chip d (h d (List.mem_cons_self _ _))
      · exact h c (List.mem_cons_of_mem _ hc)
    | succ j =>
      intro c hc
      rcases List.mem_cons.1 hc with rfl | hc
      · exact h c (List.mem_cons_self _ _)
      · exact ih j (fun x hx => h x (List.mem_cons_of_mem _ hx)) c hc

theorem clickChips_no_active_chip (clicks : List Nat) (chips : List Chip)
    (h : ∀ c ∈ chips, "active-chip" ∉ c.classList) :
    ∀ c ∈ clickChips clicks chips, "active-chip" ∉ c.classList := by
  induction clicks generalizing chips with
  | nil => exact h
  | cons i rest ih => exact ih _ (clickChip_no_active_chip i chips h)

theorem ribbon_chips_no_active_chip (members : List Member) (expenses : Expenses)
    (gridPresent : Bool) :
    ∀ c ∈ (renderRibbonUI members expenses gridPresent).chips,
      "active-chip" ∉ c.classList := by
  intro c hc
  unfold renderRibbonUI at hc
  cases gridPresent with
  | false => simp at hc
  | true =>
    simp only [if_true, List.mem_map] at hc
    obtain ⟨m, _, rfl⟩ := hc
    show "active-chip" ∉ chipClassName
    decide

theorem activeChipNames_eq_nil (elements : List Chip)
    (h : ∀ c ∈ elements, "active-chip" ∉ c.classList) : activeChipNames elements = [] := by
  unfold activeChipNames
  rw [List.map_eq_nil_iff, List.filter_eq_nil_iff]
  intro c hc
  simpa using h c hc

/-- The names `publish` collects from a grid made by `renderRibbonUI` are
none, whatever chips were clicked. -/
theorem activeChipNames_ribbon (members : List Member) (expenses : Expenses)
    (gridPresent : Bool) (clicks : List Nat) :
    activeChipNames (clickChips clicks (renderRibbonUI members expenses gridPresent).chips)
      = [] :=
  activeChipNames_eq_nil _
    (clickChips_no_active_chip clicks _ (ribbon_chips_no_active_chip members expenses gridPresent))

theorem publish_of_no_names (parseFloat : String → Option ℚ) (today : String)
    (currentUser : Option User) (currentGroupId : Option String) (pushOk : Bool)
    (w : TxWorld)
    (h : trim w.titleValue = "" ∨ parseFloat w.amountValue = none
      ∨ activeChipNames w.elements = []) :
    TransactionPanel.publish parseFloat today currentUser currentGroupId pushOk w
      = { w with toasts := w.toasts ++ [missingMetaData] } := by
  unfold TransactionPanel.publish
  cases hp : parseFloat w.amountValue with
  | none => rfl
  | some a =>
    have hcond : trim w.titleValue = "" ∨ (activeChipNames w.elements).length = 0 := by
      rcases h with h | h | h
      · exact Or.inl h
      · rw [hp] at h; exact absurd h (by simp)
      · exact Or.inr (by rw [h]; rfl)
    simp only [hcond, if_true]

/-- C13: when the trimmed title is empty, or the amount does not parse, or no
participant is selected (the list `publish` collects is empty, or the grid is
the one `renderRibbonUI` made and none of its chips is selected), `publish`
only issues the warning: nothing is pushed and the form fields and the panel
are as before. -/
theorem publish_aborts_on_invalid (parseFloat : String → Option ℚ) (today : String)
    (currentUser : Option User) (currentGroupId : Option String) (pushOk : Bool)
    (w : TxWorld)
    (h : trim w.titleValue = "" ∨ parseFloat w.amountValue = none
      ∨ activeChipNames w.elements = []
      ∨ ((∃ members expenses gridPresent clicks,
            w.elements = clickChips clicks (renderRibbonUI members expenses gridPresent).chips)
          ∧ ∀ c ∈ w.elements, chipSelected c = false)) :
    TransactionPanel.publish parseFloat today currentUser currentGroupId pushOk w
        = { w with toasts := w.toasts ++ [missingMetaData] }
      ∧ (TransactionPanel.publish parseFloat today currentUser currentGroupId pushOk w).pushes
        = w.pushes
      ∧ (TransactionPanel.publish parseFloat today currentUser currentGroupId pushOk w).titleValue
        = w.titleValue
      ∧ (TransactionPanel.publish parseFloat today currentUser currentGroupId pushOk w).amountValue
        = w.amountValue
      ∧ (TransactionPanel.publish parseFloat today currentUser currentGroupId pushOk w).panel
        = w.panel := by
  have h3 : trim w.titleValue = "" ∨ parseFloat w.amountValue = none
      ∨ activeChipNames w.elements = [] := by
    rcases h with h | h | h | h
    · exact Or.inl h
    · exact Or.inr (Or.inl h)
    · exact Or.inr (Or.inr h)
    · obtain ⟨⟨members, expenses, gridPresent, clicks, hel⟩, _⟩ := h
      exact Or.inr (Or.inr (by rw [hel]; exact activeChipNames_ribbon _ _ _ _))
  rw [publish_of_no_names parseFloat today currentUser currentGroupId pushOk w h3]
  exact ⟨rfl, rfl, rfl, rfl, rfl⟩

theorem publish_aborts_on_invalid_witness :
    trim { filledForm with titleValue := "   " }.titleValue = ""
      ∧ TransactionPanel.publish parseDigits "01 Jan" (some annUser) (some "g1") true
          { filledForm with titleValue := "   " }
        = { filledForm with titleValue := "   ", toasts := [missingMetaData] }
      ∧ parseDigits { filledForm with amountValue := "abc" }.amountValue = none
      ∧ (TransactionPanel.publish parseDigits "01 Jan" (some annUser) (some "g1") true
          { filledForm with amountValue := "abc" }).pushes = [] :=
  ⟨by decide,
    (publish_aborts_on_invalid parseDigits "01 Jan" (some annUser) (some "g1") true
      { filledForm with titleValue := "   " } (Or.inl (by decide))).1,
    by decide,
    (publish_aborts_on_invalid parseDigits "01 Jan" (some annUser) (some "g1") true
      { filledForm with amountValue := "abc" } (Or.inr (Or.inl (by decide)))).2.1⟩

/-- C17 fails on the code: on a grid made by `renderRibbonUI`, whatever chips
were clicked and whatever the title and the amount, `publish` collects no
name, fails validation and pushes nothing; with Ann and Bob both selected,
title `Dinner` and amount `300` it only issues the warning. -/
theorem publish_from_ribbon_pushes_nothing :
    (∀ (parseFloat : String → Option ℚ) (today : String) (currentUser : Option User)
        (currentGroupId : Option String) (pushOk : Bool) (members : List Member)
        (expenses : Expenses) (clicks : List Nat) (w : TxWorld),
        TransactionPanel.publish parseFloat today currentUser currentGroupId pushOk
            { w with elements := clickChips clicks (renderRibbonUI members expenses true).chips }
          = { w with
              elements := clickChips clicks (renderRibbonUI members expenses true).chips,
              toasts := w.toasts ++ [missingMetaData] })
      ∧ (filledForm.elements.filter chipSelected).map (fun c => c.name) = ["Ann", "Bob"]
      ∧ trim filledForm.titleValue = "Dinner"
      ∧ parseDigits filledForm.amountValue = some 300
      ∧ TransactionPanel.publish parseDigits "01 Jan" (some annUser) (some "g1") true filledForm
        = { filledForm with toasts := [missingMetaData] }
      ∧ (TransactionPanel.publish parseDigits "01 Jan" (some annUser) (some "g1") true
          filledForm).pushes = [] := by
  refine ⟨?_, by decide, by decide, ?_, ?_, ?_⟩
  · intro parseFloat today currentUser currentGroupId pushOk members expenses clicks w
    exact publish_of_no_names parseFloat today currentUser currentGroupId pushOk _
      (Or.inr (Or.inr (activeChipNames_ribbon members expenses true clicks)))
  · simp [parseDigits, filledForm]
  · exact publish_of_no_names parseDigits "01 Jan" (some annUser) (some "g1") true filledForm
      (Or.inr (Or.inr (activeChipNames_ribbon annBob [] true [])))
  · rw [publish_of_no_names parseDigits "01 Jan" (some annUser) (some "g1") true filledForm
      (Or.inr (Or.inr (activeChipNames_ribbon annBob [] true [])))]
    rfl

theorem firstToken_spec (s : String) :
    ' ' ∉ (firstToken s).data
      ∧ ∃ rest : List Char, s.data = (firstToken s).data ++ rest
          ∧ (rest = [] ∨ rest.head? = some ' ') := by
  refine ⟨?_, s.data.dropWhile (fun c => c != ' '), ?_, ?_⟩
  · intro h
    have := List.mem_takeWhile_imp h
    simp at this
  · exact (List.takeWhile_append_dropWhile _ _).symm
  · cases hd : s.data.dropWhile (fun c => c != ' ') with
    | nil => exact Or.inl rfl
    | cons c rest =>
      right
      have hc := List.head_dropWhile_not (fun c => c != ' ') s.data (by rw [hd]; simp)
      simp only [hd, List.head_cons] at hc
      have : c = ' ' := by simpa using hc
      simp [this]

theorem userShort_of_displayName (u : User) (dn : String) (h : u.displayName = some dn) :
    userShort (some u) = if firstToken dn = "" then "User" else firstToken dn := by
  simp [userShort, h]

/-- C14: the name `reconcileFinancials` matches with is the part of the display
name before its first space, with `User` in its place exactly when the display
name is absent or that part is empty, and it is the same for every email; so
two users whose display names share that part get the same figures on the
same expenses, whatever their emails. -/
theorem userShort_ignores_email (u1 u2 : User) (dn1 dn2 : String)
    (h1 : u1.displayName = some dn1) (h2 : u2.displayName = some dn2)
    (htoken : firstToken dn1 = firstToken dn2) :
    userShort (some u1) = (if firstToken dn1 = "" then "User" else firstToken dn1)
      ∧ (' ' ∉ (firstToken dn1).data
          ∧ ∃ rest : List Char, dn1.data = (firstToken dn1).data ++ rest
              ∧ (rest = [] ∨ rest.head? = some ' '))
      ∧ (∀ u : User, u.displayName = none → userShort (some u) = "User")
      ∧ (∀ (u : User) (email : String),
          userShort (some { u with email := email }) = userShort (some u))
      ∧ userShort (some u1) = userShort (some u2)
      ∧ (∀ expenses : Expenses,
          calcBalance (userShort (some u1)) expenses
            = calcBalance (userShort (some u2)) expenses
          ∧ (((values expenses).filter
                (fun e => decide (e.by_ = userShort (some u1)))).map (fun e => e.amount)).sum
            = (((values expenses).filter
                (fun e => decide (e.by_ = userShort (some u2)))).map (fun e => e.amount)).sum)
      ∧ (∀ (toCurrency : ℚ → String) (expenses : Expenses) (nodes : FinancialNodes),
          reconcileFinancials toCurrency expenses (some u1) nodes
            = reconcileFinancials toCurrency expenses (some u2) nodes) := by
  have hsame : userShort (some u1) = userShort (some u2) := by
    rw [userShort_of_displayName u1 dn1 h1, userShort_of_displayName u2 dn2 h2, htoken]
  refine ⟨userShort_of_displayName u1 dn1 h1, firstToken_spec dn1, ?_, ?_, hsame, ?_, ?_⟩
  · intro u hu
    simp [userShort, hu]
  · intro u email
    rfl
  · intro expenses
    rw [hsame]
    exact ⟨rfl, rfl⟩
  · intro toCurrency expenses nodes
    unfold reconcileFinancials
    rw [hsame]

theorem userShort_ignores_email_witness :
    annUser.email ≠ annOther.email
      ∧ userShort (some annUser) = "Ann"
      ∧ calcBalance (userShort (some annUser)) annPays
        = calcBalance (userShort (some annOther)) annPays :=
  ⟨by decide,
    (userShort_ignores_email annUser annOther "Ann Smith" "Ann Jones" rfl rfl (by decide)).1.trans
      (by decide),
    ((userShort_ignores_email annUser annOther "Ann Smith" "Ann Jones" rfl rfl
      (by decide)).2.2.2.2.2.1 annPays).1⟩

theorem runAIAnalysis_inv (bannerPresent : Bool) (s : TimerState) (h : TimerInv s) :
    TimerInv (UIFeedback.runAIAnalysis bannerPresent s) := by
  cases bannerPresent with
  | false => exact h
  | true =>
    right
    refine ⟨s.lastHandle + 1, Nat.succ_pos _, ?_, ?_, ?_⟩
    · rcases h with ⟨h1, _⟩ | ⟨t, ht0, _, h1, _⟩
      · simp [UIFeedback.runAIAnalysis, setInterval, h1]
      · have : t ≠ 0 := Nat.pos_iff_ne_zero.1 ht0
        simp [UIFeedback.runAIAnalysis, setInterval, clearInterval, h1, this]
    · rcases h with ⟨h1, _⟩ | ⟨t, ht0, _, h1, _⟩
      · simp [UIFeedback.runAIAnalysis, setInterval, h1]
      · have : t ≠ 0 := Nat.pos_iff_ne_zero.1 ht0
        simp [UIFeedback.runAIAnalysis, setInterval, clearInterval, h1, this]
    · rcases h with ⟨h1, h2⟩ | ⟨t, ht0, _, h1, h2⟩
      · simp [UIFeedback.runAIAnalysis, setInterval, h1, h2]
      · have : t ≠ 0 := Nat.pos_iff_ne_zero.1 ht0
        simp [UIFeedback.runAIAnalysis, setInterval, clearInterval, h1, h2, this]

theorem step_inv (s : TimerState) (c : Call) (h : TimerInv s) : TimerInv (step s c) := by
  cases c with
  | refresh rendersOk bannerPresent =>
    cases rendersOk with
    | false => exact h
    | true => exact runAIAnalysis_inv bannerPresent s h
  | runAIAnalysis bannerPresent => exact runAIAnalysis_inv bannerPresent s h

theorem foldl_step_inv (calls : List Call) (s : TimerState) (h : TimerInv s) :
    TimerInv (calls.foldl step s) := by
  induction calls generalizing s with
  | nil => exact h
  | cons c rest ih => exact ih _ (step_inv s c h)

theorem runCalls_inv (calls : List Call) : TimerInv (runCalls calls) :=
  foldl_step_inv calls _ (Or.inl ⟨rfl, rfl⟩)

theorem runAIAnalysis_cancels (bannerPresent : Bool) (s : TimerState) (h : TimerInv s)
    (hnew : (UIFeedback.runAIAnalysis bannerPresent s).lastHandle ≠ s.lastHandle)
    (t : Nat) (ht : s.insightsTimer = some t) :
    t ∉ (UIFeedback.runAIAnalysis bannerPresent s).activeIntervals := by
  cases bannerPresent with
  | false => exact absurd rfl hnew
  | true =>
    rcases h with ⟨h1, _⟩ | ⟨t2, ht0, hle, h1, h2⟩
    · rw [h1] at ht; exact absurd ht (by simp)
    · have heq : t2 = t := by rw [h1] at ht; exact Option.some.inj ht
      subst heq
      have hne : t2 ≠ 0 := Nat.pos_iff_ne_zero.1 ht0
      have hlt : t2 ≠ s.lastHandle + 1 := by omega
      simp [UIFeedback.runAIAnalysis, setInterval, clearInterval, h1, h2, hne, hlt]

/-- C15: in every state reached from a fresh session by calls of `refresh` and
`runAIAnalysis`, at most one interval timer is active and any active one is
the one recorded in `insightsTimer`; a further call that starts a timer leaves
the previously recorded one cancelled. -/
theorem insight_timer_unique (calls : List Call) :
    (runCalls calls).activeIntervals.length ≤ 1
      ∧ (∀ t ∈ (runCalls calls).activeIntervals, (runCalls calls).insightsTimer = some t)
      ∧ ∀ c : Call, (step (runCalls calls) c).lastHandle ≠ (runCalls calls).lastHandle →
          (∀ t, (runCalls calls).insightsTimer = some t →
              t ∉ (step (runCalls calls) c).activeIntervals)
            ∧ (step (runCalls calls) c).activeIntervals
              = [(step (runCalls calls) c).lastHandle]
            ∧ (step (runCalls calls) c).insightsTimer
              = some (step (runCalls calls) c).lastHandle := by
  have hinv := runCalls_inv calls
  refine ⟨?_, ?_, ?_⟩
  · rcases hinv with ⟨_, h2⟩ | ⟨t, _, _, _, h2⟩ <;> simp [h2]
  · intro t ht
    rcases hinv with ⟨_, h2⟩ | ⟨t2, _, _, h1, h2⟩
    · rw [h2] at ht; simp at ht
    · rw [h2] at ht
      rw [h1, List.mem_singleton.1 ht]
  · intro c hnew
    have hrun : ∃ b, step (runCalls calls) c = UIFeedback.runAIAnalysis b (runCalls calls) := by
      cases c with
      | refresh rendersOk bannerPresent =>
        cases rendersOk with
        | false => exact absurd rfl hnew
        | true => exact ⟨bannerPresent, rfl⟩
      | runAIAnalysis bannerPresent => exact ⟨bannerPresent, rfl⟩
    obtain ⟨b, hb⟩ := hrun
    rw [hb] at hnew ⊢
    refine ⟨fun t ht => runAIAnalysis_cancels b _ hinv hnew t ht, ?_, ?_⟩
    · cases b with
      | false => exact absurd rfl hnew
      | true =>
        rcases hinv with ⟨h1, h2⟩ | ⟨t, ht0, _, h1, h2⟩
        · simp [UIFeedback.runAIAnalysis, setInterval, h1, h2]
        · have : t ≠ 0 := Nat.pos_iff_ne_zero.1 ht0
          simp [UIFeedback.runAIAnalysis, setInterval, clearInterval, h1, h2, this]
    · cases b with
      | false => exact absurd rfl hnew
      | true =>
        rcases hinv with ⟨h1, _⟩ | ⟨t, ht0, _, h1, _⟩
        · simp [UIFeedback.runAIAnalysis, setInterval, h1]
        · have : t ≠ 0 := Nat.pos_iff_ne_zero.1 ht0
          simp [UIFeedback.runAIAnalysis, setInterval, clearInterval, h1, this]

theorem insight_timer_unique_witness :
    (runCalls [Call.refresh true true, Call.runAIAnalysis true]).insightsTimer = some 2
      ∧ 2 ∉ (step (runCalls [Call.refresh true true, Call.runAIAnalysis true])
          (Call.refresh true true)).activeIntervals :=
  ⟨by decide,
    ((insight_timer_unique [Call.refresh true true, Call.runAIAnalysis true]).2.2
      (Call.refresh true true) (by decide)).1 2 (by decide)⟩

theorem join_written_cases (L : LowerCase) (idValue : Option String) (data : GroupData) (user : User)
    (writeOk : Bool) :
    (WorkspaceController.join L idValue (some (some data)) (some user) writeOk).written = none
      ∨ ∃ dn, user.displayName = some dn
          ∧ (∀ m ∈ data.members.getD [], m.email ≠ L.toLowerCase user.email)
          ∧ (WorkspaceController.join L idValue (some (some data)) (some user) writeOk).written
            = some (data.members.getD [] ++
                [{ name := firstToken dn, email := L.toLowerCase user.email, uid := user.uid }]) := by
  unfold WorkspaceController.join
  cases hid : idValue.map trim with
  | none => left; rfl
  | some id =>
    by_cases hempty : id = ""
    · left; simp [hempty]
    · by_cases hany : (data.members.getD []).any (fun m => m.email == L.toLowerCase user.email)
          = true
      · left; simp [hempty, hany]
      · cases hdn : user.displayName with
        | none => left; simp [hempty, hany, hdn]
        | some dn =>
          cases writeOk with
          | false => left; simp [hempty, hany, hdn]
          | true =>
            right
            refine ⟨dn, rfl, ?_, ?_⟩
            · intro m hm heq
              apply hany
              rw [List.any_eq_true]
              exact ⟨m, hm, by simp [heq]⟩
            · simp [hempty, hany, hdn]

theorem join_written_of_member (L : LowerCase) (idValue : Option String) (data : GroupData) (user : User)
    (writeOk : Bool)
    (h : ∃ m ∈ data.members.getD [], m.email = L.toLowerCase user.email) :
    (WorkspaceController.join L idValue (some (some data)) (some user) writeOk).written = none := by
  rcases join_written_cases L idValue data user writeOk with hw | ⟨dn, _, hno, _⟩
  · exact hw
  · obtain ⟨m, hm, heq⟩ := h
    exact absurd heq (hno m hm)

/-- C16 as stated fails: Ann and Bob have distinct names and emails; Ann Jones,
signed in with another email, joins and the list written holds the name `Ann`
twice. -/
theorem join_duplicate_name_counterexample :
    (annBob.map Member.name).Nodup ∧ (annBob.map Member.email).Nodup
      ∧ (WorkspaceController.join asciiOnly (some "g1") (some (some annBobGroup)) (some annOther)
          true).written
        = some (annBob ++ [{ name := "Ann", email := "ann.jones@x.io", uid := "u9" }])
      ∧ ¬ ((membersAfterJoin annBobGroup
            (WorkspaceController.join asciiOnly (some "g1") (some (some annBobGroup)) (some annOther)
              true)).map Member.name).Nodup := by
  refine ⟨by decide, by decide, by decide, by decide⟩

/-- C16 amended: when the stored emails are pairwise distinct, the member list
`join` writes or leaves in place has pairwise distinct emails; its names are
pairwise distinct as well when the stored names are and the first token of
the user's display name is not yet a member's name; joining a group that
already lists the user's lower-cased email writes nothing and leaves the list
as it is. -/
theorem join_keeps_emails_distinct (L : LowerCase) (idValue : Option String) (data : GroupData)
    (user : User) (writeOk : Bool)
    (hemails : ((data.members.getD []).map Member.email).Nodup) :
    ((membersAfterJoin data
        (WorkspaceController.join L idValue (some (some data)) (some user) writeOk)).map
          Member.email).Nodup
      ∧ (((data.members.getD []).map Member.name).Nodup →
          (∀ dn, user.displayName = some dn →
            firstToken dn ∉ (data.members.getD []).map Member.name) →
          ((membersAfterJoin data
            (WorkspaceController.join L idValue (some (some data)) (some user) writeOk)).map
              Member.name).Nodup)
      ∧ ((∃ m ∈ data.members.getD [], m.email = L.toLowerCase user.email) →
          (WorkspaceController.join L idValue (some (some data)) (some user) writeOk).written
              = none
            ∧ membersAfterJoin data
                (WorkspaceController.join L idValue (some (some data)) (some user) writeOk)
              = data.members.getD []) := by
  refine ⟨?_, ?_, ?_⟩
  · rcases join_written_cases L idValue data user writeOk with hw | ⟨dn, _, hno, hw⟩
    · simpa [membersAfterJoin, hw] using hemails
    · simp only [membersAfterJoin, hw, Option.getD_some, List.map_append, List.map_cons,
        List.map_nil]
      refine List.Nodup.append hemails (List.nodup_singleton _) ?_
      intro e he he2
      rw [List.mem_singleton] at he2
      obtain ⟨m, hm, hme⟩ := List.mem_map.1 he
      exact hno m hm (hme.trans he2)
  · intro hnames hfresh
    rcases join_written_cases L idValue data user writeOk with hw | ⟨dn, hdn, _, hw⟩
    · simpa [membersAfterJoin, hw] using hnames
    · simp only [membersAfterJoin, hw, Option.getD_some, List.map_append, List.map_cons,
        List.map_nil]
      refine List.Nodup.append hnames (List.nodup_singleton _) ?_
      intro n hn hn2
      rw [List.mem_singleton] at hn2
      exact hfresh dn hdn (hn2 ▸ hn)
  · intro hmem
    have hw := join_written_of_member L idValue data user writeOk hmem
    exact ⟨hw, by simp [membersAfterJoin, hw]⟩

theorem join_keeps_emails_distinct_witness :
    ((membersAfterJoin annBobGroup
        (WorkspaceController.join asciiOnly (some "g1") (some (some annBobGroup)) (some annOther)
          true)).map Member.email).Nodup
      ∧ membersAfterJoin annBobGroup
          (WorkspaceController.join asciiOnly (some "g1") (some (some annBobGroup)) (some annUser) true)
        = annBob :=
  ⟨(join_keeps_emails_distinct asciiOnly (some "g1") annBobGroup annOther true (by decide)).1,
    ((join_keeps_emails_distinct asciiOnly (some "g1") annBobGroup annUser true (by decide)).2.2
      ⟨{ name := "Ann", email := "ann@x.io", uid := "u1" }, by decide, by decide⟩).2⟩

end TripSplit
